import Mathlib

/-!
# Depth-to-colour registration (Kinect driver, `registration.cpp` / `registration.h`)

A shallow embedding of `RegistrationImpl`: the camera parameter structs, the
lens distortion `distort`, the polynomial mapping `depth_to_color`, the
constructor that fills the four lookup tables, and the three `apply`
overloads; and of the function template `resize` of `registration.h`.

Conventions of the embedding.

* A `float` value is the rational number it denotes.  Every float operation
  is the exact operation followed by a rounding `rnd : ℚ → ℚ`, which is a
  parameter of the embedding.  `roundF32` is IEEE-754 binary32
  round-to-nearest-even (finite values only: overflow to infinity and NaN are
  not modelled), `roundF64` is binary64 for the `double` operations of
  `resize`; `id` gives exact arithmetic.
* `int` is `Int`; signed overflow and out-of-range float-to-int conversion
  (undefined behaviour in C++) are not modelled.
* A C array is a function `Nat → α`.  Every access to a frame or output buffer
  of the caller, and every table access of the point query, is checked against
  the extent of the array (`512 * 424` or `1920 * 1080` elements); an access
  outside of it makes the operation return `none`.  The object's own arrays and
  the local `depth_to_c_off` are accessed by a loop counter that the loop bound
  keeps below their extent.
-/

namespace Kinect

/-! ## Float arithmetic -/

/-- Floor of the binary logarithm of `n` (`0` for `n < 2`), by halving. -/
def log2Fuel : Nat → Nat → Nat
  | 0, _ => 0
  | fuel + 1, n => if n < 2 then 0 else log2Fuel fuel (n / 2) + 1

/-- Floor of the binary logarithm of the magnitude of a non-zero rational. -/
def ilog2 (q : ℚ) : Int :=
  let k : Int := (log2Fuel q.num.natAbs q.num.natAbs : Int) - (log2Fuel q.den q.den : Int)
  if (2 : ℚ) ^ k ≤ |q| then k else k - 1

/-- Integer nearest to `q`, a tie going to the even neighbour. -/
def roundHalfEven (q : ℚ) : Int :=
  let f := ⌊q⌋
  let r := q - f
  if r < 1 / 2 then f else if 1 / 2 < r then f + 1 else if f % 2 = 0 then f else f + 1

/-- IEEE-754 binary32 rounding to nearest, ties to even, of an exact result
(24-bit significand, least exponent -149; no overflow). -/
def roundF32 (q : ℚ) : ℚ :=
  if q = 0 then 0 else
    let e : Int := max (-149) (ilog2 q - 23)
    (roundHalfEven (q / (2 : ℚ) ^ e) : ℚ) * (2 : ℚ) ^ e

/-- Rounding to nearest, ties to even, to the binary format with `p + 1`
significand bits and least exponent `emin` (no overflow); `roundF32` is the
case `p = 23`, `emin = -149`. -/
def roundBinary (p : Nat) (emin : Int) (q : ℚ) : ℚ :=
  if q = 0 then 0 else
    let e : Int := max emin (ilog2 q - (p : Int))
    (roundHalfEven (q / (2 : ℚ) ^ e) : ℚ) * (2 : ℚ) ^ e

/-- IEEE-754 binary64 (`double`) rounding to nearest, ties to even, of an exact
result (53-bit significand, least exponent -1074; no overflow). -/
def roundF64 (q : ℚ) : ℚ := roundBinary 52 (-1074) q

/-- Float addition `a + b`. -/
def fadd (rnd : ℚ → ℚ) (a b : ℚ) : ℚ := rnd (a + b)

/-- Float subtraction `a - b`. -/
def fsub (rnd : ℚ → ℚ) (a b : ℚ) : ℚ := rnd (a - b)

/-- Float multiplication `a * b`. -/
def fmul (rnd : ℚ → ℚ) (a b : ℚ) : ℚ := rnd (a * b)

/-- Float division `a / b`. -/
def fdiv (rnd : ℚ → ℚ) (a b : ℚ) : ℚ := rnd (a / b)

/-- Conversion `(float)n` of an `int`. -/
def ofInt (rnd : ℚ → ℚ) (n : Int) : ℚ := rnd (n : ℚ)

/-- Conversion `(int)q` of a float: truncation toward zero. -/
def toInt (q : ℚ) : Int := if 0 ≤ q then ⌊q⌋ else ⌈q⌉

/-! ## Camera parameters (`registration.h`) -/

/-- Depth camera parameters, `struct IrCameraParams`. -/
structure IrCameraParams where
  fx : ℚ
  fy : ℚ
  cx : ℚ
  cy : ℚ
  k1 : ℚ
  k2 : ℚ
  k3 : ℚ
  p1 : ℚ
  p2 : ℚ
  mq : ℚ

/-- Colour camera parameters, `struct ColorCameraParams`. -/
structure ColorCameraParams where
  fx : ℚ
  fy : ℚ
  cx : ℚ
  cy : ℚ
  shift_d : ℚ
  shift_m : ℚ
  mx_x3y0 : ℚ
  mx_x0y3 : ℚ
  mx_x2y1 : ℚ
  mx_x1y2 : ℚ
  mx_x2y0 : ℚ
  mx_x0y2 : ℚ
  mx_x1y1 : ℚ
  mx_x1y0 : ℚ
  mx_x0y1 : ℚ
  mx_x0y0 : ℚ
  my_x3y0 : ℚ
  my_x0y3 : ℚ
  my_x2y1 : ℚ
  my_x1y2 : ℚ
  my_x2y0 : ℚ
  my_x0y2 : ℚ
  my_x1y1 : ℚ
  my_x1y0 : ℚ
  my_x0y1 : ℚ
  my_x0y0 : ℚ
  mq : ℚ

/-- The default member initialisers of `IrCameraParams`
(each `(float)literal` is the literal rounded to binary32). -/
def IrCameraParams.default : IrCameraParams where
  fx := roundF32 (351447 / 1000)
  fy := roundF32 (354899 / 1000)
  cx := roundF32 (256486694 / 1000000)
  cy := roundF32 (207852905 / 1000000)
  k1 := roundF32 (944473594 / 10000000000)
  k2 := roundF32 (-272574991 / 1000000000)
  k3 := roundF32 (929763764 / 10000000000)
  p1 := roundF32 0
  p2 := roundF32 0
  mq := roundF32 (1 / 100)

/-- The default member initialisers of `ColorCameraParams`. -/
def ColorCameraParams.default : ColorCameraParams where
  fx := roundF32 (108137207 / 100000)
  fy := roundF32 (108137207 / 100000)
  cx := roundF32 (957425 / 1000)
  cy := roundF32 540
  shift_d := roundF32 863
  shift_m := roundF32 52
  mx_x3y0 := roundF32 (770506682 / 1000000000000)
  mx_x0y3 := roundF32 (120775903 / 10000000000000)
  mx_x2y1 := roundF32 (376318094 / 10000000000000)
  mx_x1y2 := roundF32 (614197692 / 1000000000000)
  mx_x2y0 := roundF32 (680659898 / 1000000000000)
  mx_x0y2 := roundF32 (344224718 / 10000000000000)
  mx_x1y1 := roundF32 (682990285 / 10000000000000)
  mx_x1y0 := roundF32 (640516996 / 1000000000)
  mx_x0y1 := roundF32 (-459693093 / 100000000000)
  mx_x0y0 := roundF32 (145085305 / 1000000000)
  my_x3y0 := roundF32 (247515800 / 100000000000000)
  my_x0y3 := roundF32 (991923735 / 1000000000000)
  my_x2y1 := roundF32 (699647586 / 1000000000000)
  my_x1y2 := roundF32 (394420204 / 10000000000000)
  my_x2y0 := roundF32 (-404973107 / 10000000000000)
  my_x0y2 := roundF32 (106151798 / 1000000000000)
  my_x1y1 := roundF32 (555969891 / 1000000000000)
  my_x1y0 := roundF32 (499383500 / 100000000000)
  my_x0y1 := roundF32 (639892220 / 1000000000)
  my_x0y0 := roundF32 (404909311 / 1000000000000)
  mq := roundF32 (2199 / 1000000)

/-! ## `distort` and `depth_to_color` -/

/-- The method `RegistrationImpl::distort(int mx, int my, float& x, float& y)`;
the result is the pair `(x, y)`. -/
def distort (rnd : ℚ → ℚ) (depth : IrCameraParams) (mx my : Int) : ℚ × ℚ :=
  let dx := fdiv rnd (fsub rnd (ofInt rnd mx) depth.cx) depth.fx
  let dy := fdiv rnd (fsub rnd (ofInt rnd my) depth.cy) depth.fy
  let dx2 := fmul rnd dx dx
  let dy2 := fmul rnd dy dy
  let r2 := fadd rnd dx2 dy2
  let dxdy2 := fmul rnd (fmul rnd 2 dx) dy
  let kr := fadd rnd 1
    (fmul rnd (fadd rnd (fmul rnd (fadd rnd (fmul rnd depth.k3 r2) depth.k2) r2) depth.k1) r2)
  let x := fadd rnd (fmul rnd depth.fx
    (fadd rnd (fadd rnd (fmul rnd dx kr) (fmul rnd depth.p2 (fadd rnd r2 (fmul rnd 2 dx2))))
      (fmul rnd depth.p1 dxdy2))) depth.cx
  let y := fadd rnd (fmul rnd depth.fy
    (fadd rnd (fadd rnd (fmul rnd dy kr) (fmul rnd depth.p1 (fadd rnd r2 (fmul rnd 2 dy2))))
      (fmul rnd depth.p2 dxdy2))) depth.cy
  (x, y)

/-- The method `RegistrationImpl::depth_to_color(float mx, float my, float& rx, float& ry)`;
the result is the pair `(rx, ry)`. -/
def depth_to_color (rnd : ℚ → ℚ) (depth : IrCameraParams) (color : ColorCameraParams)
    (mx0 my0 : ℚ) : ℚ × ℚ :=
  let mx := fmul rnd (fsub rnd mx0 depth.cx) depth.mq
  let my := fmul rnd (fsub rnd my0 depth.cy) depth.mq
  let wx :=
    fadd rnd (fadd rnd (fadd rnd (fadd rnd (fadd rnd (fadd rnd (fadd rnd (fadd rnd (fadd rnd
      (fmul rnd (fmul rnd (fmul rnd mx mx) mx) color.mx_x3y0)
      (fmul rnd (fmul rnd (fmul rnd my my) my) color.mx_x0y3))
      (fmul rnd (fmul rnd (fmul rnd mx mx) my) color.mx_x2y1))
      (fmul rnd (fmul rnd (fmul rnd my my) mx) color.mx_x1y2))
      (fmul rnd (fmul rnd mx mx) color.mx_x2y0))
      (fmul rnd (fmul rnd my my) color.mx_x0y2))
      (fmul rnd (fmul rnd mx my) color.mx_x1y1))
      (fmul rnd mx color.mx_x1y0))
      (fmul rnd my color.mx_x0y1))
      color.mx_x0y0
  let wy :=
    fadd rnd (fadd rnd (fadd rnd (fadd rnd (fadd rnd (fadd rnd (fadd rnd (fadd rnd (fadd rnd
      (fmul rnd (fmul rnd (fmul rnd mx mx) mx) color.my_x3y0)
      (fmul rnd (fmul rnd (fmul rnd my my) my) color.my_x0y3))
      (fmul rnd (fmul rnd (fmul rnd mx mx) my) color.my_x2y1))
      (fmul rnd (fmul rnd (fmul rnd my my) mx) color.my_x1y2))
      (fmul rnd (fmul rnd mx mx) color.my_x2y0))
      (fmul rnd (fmul rnd my my) color.my_x0y2))
      (fmul rnd (fmul rnd mx my) color.my_x1y1))
      (fmul rnd mx color.my_x1y0))
      (fmul rnd my color.my_x0y1))
      color.my_x0y0
  let rx := fsub rnd (fdiv rnd wx (fmul rnd color.fx color.mq))
    (fdiv rnd color.shift_m color.shift_d)
  let ry := fadd rnd (fdiv rnd wy color.mq) color.cy
  (rx, ry)

/-! ## Arrays and loops -/

/-- Number of entries of a depth-grid array, `size_depth = 512 * 424`. -/
def size_depth : Nat := 512 * 424

/-- Number of pixels of a colour frame, `size_color = 1920 * 1080`. -/
def size_color : Nat := 1920 * 1080

/-- Read `p[i]`, where `p` points to the first of `size` elements;
`none` when `i` is outside of the array. -/
def readAt {α : Type} (size : Nat) (buf : Nat → α) (i : Int) : Option α :=
  if 0 ≤ i ∧ i < (size : Int) then some (buf i.toNat) else none

/-- Store `p[i] = v`, where `p` points to the first of `size` elements;
`none` when `i` is outside of the array. -/
def writeAt {α : Type} (size : Nat) (buf : Nat → α) (i : Nat) (v : α) : Option (Nat → α) :=
  if i < size then some (Function.update buf i v) else none

/-- The loop `for (i = lo; i < lo + n; ++i) s = body(i, s)`. -/
def forLoop {σ : Type} (body : Nat → σ → σ) : Nat → Nat → σ → σ
  | 0, _, s => s
  | n + 1, i, s => forLoop body n (i + 1) (body i s)

/-- The loop `for (i = lo; i < lo + n; ++i) s = body(i, s)` whose body makes
checked array accesses; the first access outside of an array ends it with `none`. -/
def forLoopM {σ : Type} (body : Nat → σ → Option σ) : Nat → Nat → σ → Option σ
  | 0, _, s => some s
  | n + 1, i, s => (body i s).bind (forLoopM body n (i + 1))

/-! ## `RegistrationImpl` -/

/-- The data members of `class RegistrationImpl` that the code reads: the two
parameter structs and the four tables of `512 * 424` entries.  (The three
`filter_*` constants are only used to initialise locals that are never read.) -/
structure RegistrationImpl where
  depth : IrCameraParams
  color : ColorCameraParams
  distort_map : Nat → Int
  depth_to_color_map_x : Nat → ℚ
  depth_to_color_map_y : Nat → ℚ
  depth_to_color_map_yi : Nat → Int

/-- Constructor, lines 264-272: the value `index` stored for pixel `(x, y)`. -/
def distort_index (rnd : ℚ → ℚ) (depth : IrCameraParams) (x y : Nat) : Int :=
  let m := distort rnd depth (x : Int) (y : Int)
  let ix := toInt (fadd rnd m.1 (1 / 2))
  let iy := toInt (fadd rnd m.2 (1 / 2))
  if ix < 0 ∨ ix ≥ 512 ∨ iy < 0 ∨ iy ≥ 424 then -1 else iy * 512 + ix

/-- State of the constructor's loops: the object under construction and the
offsets of the four write pointers `map_dist`, `map_x`, `map_y`, `map_yi`
from the start of their arrays. -/
structure CtorState where
  self : RegistrationImpl
  map_dist : Nat
  map_x : Nat
  map_y : Nat
  map_yi : Nat

/-- Constructor, body of the inner loop (lines 263-280) for pixel `(x, y)`. -/
def ctorPixel (rnd : ℚ → ℚ) (y x : Nat) (s : CtorState) : CtorState :=
  let index := distort_index rnd s.self.depth x y
  let r := depth_to_color rnd s.self.depth s.self.color (ofInt rnd (x : Int)) (ofInt rnd (y : Int))
  { self :=
      { s.self with
        distort_map := Function.update s.self.distort_map s.map_dist index
        depth_to_color_map_x := Function.update s.self.depth_to_color_map_x s.map_x r.1
        depth_to_color_map_y := Function.update s.self.depth_to_color_map_y s.map_y r.2
        depth_to_color_map_yi :=
          Function.update s.self.depth_to_color_map_yi s.map_yi (toInt (fadd rnd r.2 (1 / 2))) }
    map_dist := s.map_dist + 1
    map_x := s.map_x + 1
    map_y := s.map_y + 1
    map_yi := s.map_yi + 1 }

/-- The constructor `RegistrationImpl::RegistrationImpl()`.  `raw` is the object before the
constructor body runs: `depth` and `color` hold their initial values and the
four arrays hold whatever the storage contained. -/
def RegistrationImpl.new (rnd : ℚ → ℚ) (raw : RegistrationImpl) : RegistrationImpl :=
  (forLoop (fun y s => forLoop (fun x s => ctorPixel rnd y x s) 512 0 s) 424 0
    { self := raw, map_dist := 0, map_x := 0, map_y := 0, map_yi := 0 }).self

/-- Storage of a `RegistrationImpl` as the C++ code initialises it before the
constructor body: the default parameters, arrays not yet written (zero here). -/
def RegistrationImpl.raw : RegistrationImpl where
  depth := IrCameraParams.default
  color := ColorCameraParams.default
  distort_map := fun _ => 0
  depth_to_color_map_x := fun _ => 0
  depth_to_color_map_y := fun _ => 0
  depth_to_color_map_yi := fun _ => 0

/-- The overload `RegistrationImpl::apply(int dx, int dy, float dz, float& cx, float& cy)`;
the result is the pair `(cx, cy)`. -/
def RegistrationImpl.apply (rnd : ℚ → ℚ) (self : RegistrationImpl) (dx dy : Int) (_dz : ℚ) :
    Option (ℚ × ℚ) :=
  let index := dx + dy * 512
  (readAt size_depth self.depth_to_color_map_x index).bind fun rx =>
  (readAt size_depth self.depth_to_color_map_y index).bind fun cy =>
  let cx := fadd rnd (fmul rnd rx self.color.fx) self.color.cx
  some (cx, cy)

/-- Lines 155-163, shared by both frame overloads: the colour offset
`c_off = cx + cy * 1920` computed for depth-grid index `i`. -/
def RegistrationImpl.c_off (rnd : ℚ → ℚ) (self : RegistrationImpl) (i : Nat) : Int :=
  let color_cx := fadd rnd self.color.cx (1 / 2)
  let rx := fadd rnd (fmul rnd (self.depth_to_color_map_x i) self.color.fx) color_cx
  let cx := toInt rx
  let cy := self.depth_to_color_map_yi i
  cx + cy * 1920

/-- Overload `apply(RGBQUAD*, RGBQUAD*)`, body of the first loop (lines 149-163): the
value stored to `*map_c_off` in iteration `i`.  The read pointers `map_dist`,
`map_x`, `map_yi` and the write pointer `map_c_off` all start at the first
element and advance once per iteration, so each is at offset `i`. -/
def RegistrationImpl.map_c_off_rgb (rnd : ℚ → ℚ) (self : RegistrationImpl) (i : Nat) : Int :=
  let index := self.distort_map i
  if index < 0 then -1
  else
    let c_off := self.c_off rnd i
    if c_off < 0 ∨ c_off ≥ (size_color : Int) then -1 else c_off

/-- State of the second loop of `apply(RGBQUAD*, RGBQUAD*)`: the output buffer
and the offset of the write pointer `registered_data` from its start. -/
structure RgbState where
  registered_data : Nat
  registered : Nat → Nat

/-- Overload `apply(RGBQUAD*, RGBQUAD*)`, body of the second loop (lines 173-174);
`map_c_off` is at offset `i` of `depth_to_c_off`. -/
def rgbBand (rgb : Nat → Nat) (depth_to_c_off : Nat → Int) (i : Nat) (s : RgbState) :
    Option RgbState :=
  let c_off := depth_to_c_off i
  (if c_off < 0 then some 0 else readAt size_color rgb c_off).bind fun v =>
  (writeAt size_depth s.registered s.registered_data v).bind fun out =>
  some { registered_data := s.registered_data + 1, registered := out }

/-- The overload `RegistrationImpl::apply(RGBQUAD* rgb, RGBQUAD* registered)`: the content
of the buffer `registered` after the call.  Pixels are the `unsigned int`
values the code reinterprets them as. -/
def RegistrationImpl.apply_rgb (rnd : ℚ → ℚ) (self : RegistrationImpl) (rgb : Nat → Nat)
    (registered : Nat → Nat) : Option (Nat → Nat) :=
  let depth_to_c_off : Nat → Int :=
    forLoop (fun i m => Function.update m i (self.map_c_off_rgb rnd i)) size_depth 0 (fun _ => 0)
  (forLoopM (rgbBand rgb depth_to_c_off) (389 * 512 - 26 * 512) (26 * 512)
    { registered_data := 0, registered := registered }).map fun s => s.registered

/-- Overload `apply(UINT16*, UINT16*)`, body of the first loop (lines 203-224): the
value stored to `*map_c_off` in iteration `i`; `none` when `depth_data[index]`
is read outside of the depth frame. -/
def RegistrationImpl.map_c_off_depth (rnd : ℚ → ℚ) (self : RegistrationImpl)
    (depth_data : Nat → Nat) (i : Nat) : Option Int :=
  let index := self.distort_map i
  if index < 0 then some (-1)
  else
    (readAt size_depth depth_data index).bind fun d =>
      if d ≤ 0 then some (-1)
      else
        let c_off := self.c_off rnd i
        if c_off < 0 ∨ c_off ≥ (size_color : Int) then some (-1) else some c_off

/-- State of the second loop of `apply(UINT16*, UINT16*)`: the output buffer
and the offsets of the pointers `depth_data` and `undistorted_data` from the
start of their buffers. -/
structure DepthState where
  depth_data : Nat
  undistorted_data : Nat
  undistorted : Nat → Nat

/-- Overload `apply(UINT16*, UINT16*)`, body of the second loop (lines 233-236);
`map_c_off` is at offset `i` of `depth_to_c_off`. -/
def depthBand (depth : Nat → Nat) (depth_to_c_off : Nat → Int) (i : Nat) (s : DepthState) :
    Option DepthState :=
  let c_off := depth_to_c_off i
  (if c_off < 0 then some 0 else readAt size_depth depth (s.depth_data : Int)).bind fun v =>
  (writeAt size_depth s.undistorted s.undistorted_data v).bind fun out =>
  some { depth_data := s.depth_data + 1, undistorted_data := s.undistorted_data + 1,
         undistorted := out }

/-- The overload `RegistrationImpl::apply(UINT16* depth, UINT16* undistorted)`: the content
of the buffer `undistorted` after the call. -/
def RegistrationImpl.apply_depth (rnd : ℚ → ℚ) (self : RegistrationImpl) (depth : Nat → Nat)
    (undistorted : Nat → Nat) : Option (Nat → Nat) :=
  (forLoopM
    (fun i m => (self.map_c_off_depth rnd depth i).bind fun c => some (Function.update m i c))
    size_depth 0 (fun _ => 0)).bind fun depth_to_c_off =>
  (forLoopM (depthBand depth depth_to_c_off) (389 * 512 - 26 * 512) (26 * 512)
    { depth_data := 0 + 26 * 512, undistorted_data := 0, undistorted := undistorted }).map
    fun s => s.undistorted

/-! ## What one iteration of the band loops stores -/

/-- Pixel that iteration `i` of the second loop of `apply(RGBQUAD*, RGBQUAD*)`
stores through `registered_data`. -/
def RegistrationImpl.rgbValue (rnd : ℚ → ℚ) (self : RegistrationImpl) (rgb : Nat → Nat)
    (i : Nat) : Nat :=
  if self.map_c_off_rgb rnd i < 0 then 0 else rgb (self.map_c_off_rgb rnd i).toNat

/-- Entry `i` of `depth_to_c_off` after the first loop of `apply(UINT16*, UINT16*)`,
when every read of that loop is inside the depth frame. -/
def RegistrationImpl.depthOffset (rnd : ℚ → ℚ) (self : RegistrationImpl) (depth : Nat → Nat)
    (i : Nat) : Int :=
  if self.distort_map i < 0 then -1
  else if depth (self.distort_map i).toNat ≤ 0 then -1
  else if self.c_off rnd i < 0 ∨ self.c_off rnd i ≥ (size_color : Int) then -1
  else self.c_off rnd i

/-- Sample that iteration `i` of the second loop of `apply(UINT16*, UINT16*)`
stores through `undistorted_data`. -/
def RegistrationImpl.depthValue (rnd : ℚ → ℚ) (self : RegistrationImpl) (depth : Nat → Nat)
    (i : Nat) : Nat :=
  if self.depthOffset rnd depth i < 0 then 0 else depth i

/-! ## Invariant of the constructor -/

/-- Invariant of the constructor's loops after `k` pixels. -/
def CtorInv (rnd : ℚ → ℚ) (raw : RegistrationImpl) (k : Nat) (s : CtorState) : Prop :=
  s.map_dist = k ∧ s.map_x = k ∧ s.map_y = k ∧ s.map_yi = k ∧
  s.self.depth = raw.depth ∧ s.self.color = raw.color ∧
  ∀ j, j < k →
    s.self.distort_map j = distort_index rnd raw.depth (j % 512) (j / 512) ∧
    s.self.depth_to_color_map_x j =
      (depth_to_color rnd raw.depth raw.color (ofInt rnd ((j % 512 : Nat) : Int))
        (ofInt rnd ((j / 512 : Nat) : Int))).1 ∧
    s.self.depth_to_color_map_y j =
      (depth_to_color rnd raw.depth raw.color (ofInt rnd ((j % 512 : Nat) : Int))
        (ofInt rnd ((j / 512 : Nat) : Int))).2 ∧
    s.self.depth_to_color_map_yi j =
      toInt (fadd rnd (depth_to_color rnd raw.depth raw.color (ofInt rnd ((j % 512 : Nat) : Int))
        (ofInt rnd ((j / 512 : Nat) : Int))).2 (1 / 2))

/-! ## Cameras without lens distortion -/

/-- The default depth camera with the five distortion coefficients set to zero. -/
def IrCameraParams.noDistortion : IrCameraParams :=
  { IrCameraParams.default with k1 := 0, k2 := 0, k3 := 0, p1 := 0, p2 := 0 }

/-- A depth camera without distortion, unit focal lengths and the principal
point at `(2^26, 0)`. -/
def IrCameraParams.farCentre : IrCameraParams where
  fx := 1
  fy := 1
  cx := 67108864
  cy := 0
  k1 := 0
  k2 := 0
  k3 := 0
  p1 := 0
  p2 := 0
  mq := 1

/-! ## The distortion model as the specification words it -/

/-- The distortion model in the words of the specification:
`dx = (mx-cx)/fx`, `dy = (my-cy)/fy`, `r2 = dx^2 + dy^2`,
`kr = 1 + k1*r2 + k2*r2^2 + k3*r2^3` (the expanded radial polynomial),
`x = fx*(dx*kr + p2*(r2 + 2*dx^2) + p1*2*dx*dy) + cx` and
`y = fy*(dy*kr + p1*(r2 + 2*dy^2) + p2*2*dx*dy) + cy`, every operation in the
arithmetic `rnd`, in the order in which the formula is written. -/
def distort_spec (rnd : ℚ → ℚ) (depth : IrCameraParams) (mx my : Int) : ℚ × ℚ :=
  let dx := fdiv rnd (fsub rnd (ofInt rnd mx) depth.cx) depth.fx
  let dy := fdiv rnd (fsub rnd (ofInt rnd my) depth.cy) depth.fy
  let r2 := fadd rnd (fmul rnd dx dx) (fmul rnd dy dy)
  let kr := fadd rnd (fadd rnd (fadd rnd 1 (fmul rnd depth.k1 r2))
    (fmul rnd depth.k2 (fmul rnd r2 r2))) (fmul rnd depth.k3 (fmul rnd (fmul rnd r2 r2) r2))
  let x := fadd rnd (fmul rnd depth.fx
    (fadd rnd (fadd rnd (fmul rnd dx kr)
        (fmul rnd depth.p2 (fadd rnd r2 (fmul rnd 2 (fmul rnd dx dx)))))
      (fmul rnd (fmul rnd (fmul rnd depth.p1 2) dx) dy))) depth.cx
  let y := fadd rnd (fmul rnd depth.fy
    (fadd rnd (fadd rnd (fmul rnd dy kr)
        (fmul rnd depth.p1 (fadd rnd r2 (fmul rnd 2 (fmul rnd dy dy)))))
      (fmul rnd (fmul rnd (fmul rnd depth.p2 2) dx) dy))) depth.cy
  (x, y)

/-! ## A colour camera with a shifted principal point -/

/-- The default colour camera with the principal point column `cx` moved to 2000. -/
def ColorCameraParams.shifted : ColorCameraParams :=
  { ColorCameraParams.default with cx := 2000 }

/-! ## The synthetic linear colour model -/

/-- A colour camera whose twenty polynomial coefficients are zero except
`mx_x1y0 = 1` and `my_x0y1 = 1`, and whose shift term `shift_m` is zero. -/
def ColorCameraParams.isLinearModel (c : ColorCameraParams) : Prop :=
  c.mx_x3y0 = 0 ∧ c.mx_x0y3 = 0 ∧ c.mx_x2y1 = 0 ∧ c.mx_x1y2 = 0 ∧ c.mx_x2y0 = 0 ∧
  c.mx_x0y2 = 0 ∧ c.mx_x1y1 = 0 ∧ c.mx_x1y0 = 1 ∧ c.mx_x0y1 = 0 ∧ c.mx_x0y0 = 0 ∧
  c.my_x3y0 = 0 ∧ c.my_x0y3 = 0 ∧ c.my_x2y1 = 0 ∧ c.my_x1y2 = 0 ∧ c.my_x2y0 = 0 ∧
  c.my_x0y2 = 0 ∧ c.my_x1y1 = 0 ∧ c.my_x1y0 = 0 ∧ c.my_x0y1 = 1 ∧ c.my_x0y0 = 0 ∧
  c.shift_m = 0

instance (c : ColorCameraParams) : Decidable c.isLinearModel := by
  unfold ColorCameraParams.isLinearModel
  infer_instance

/-- The default colour intrinsics with the linear model in place of the
factory polynomial. -/
def ColorCameraParams.linearModel : ColorCameraParams :=
  { ColorCameraParams.default with
    shift_m := 0
    mx_x3y0 := 0, mx_x0y3 := 0, mx_x2y1 := 0, mx_x1y2 := 0, mx_x2y0 := 0
    mx_x0y2 := 0, mx_x1y1 := 0, mx_x1y0 := 1, mx_x0y1 := 0, mx_x0y0 := 0
    my_x3y0 := 0, my_x0y3 := 0, my_x2y1 := 0, my_x1y2 := 0, my_x2y0 := 0
    my_x0y2 := 0, my_x1y1 := 0, my_x1y0 := 0, my_x0y1 := 1, my_x0y0 := 0 }

/-! ## `resize` (`registration.h`) -/

/-- The function `std::floor` on a `double`: an integer, without rounding. -/
def ffloor (q : ℚ) : ℚ := (⌊q⌋ : ℚ)

/-- Store `p[i] = v` at an `int` offset, where `p` points to the first of
`size` elements; `none` when `i` is outside of the array. -/
def storeAt {α : Type} (size : Nat) (buf : Nat → α) (i : Int) (v : α) : Option (Nat → α) :=
  if 0 ≤ i ∧ i < (size : Int) then some (Function.update buf i.toNat v) else none

/-- Lines 163-165 of `resize`: `inv_scale = (double)dst_size / src_size` and
`scale = 1. / inv_scale`, in `double` arithmetic `rnd`. -/
def resize_scale (rnd : ℚ → ℚ) (src_size dst_size : Int) : ℚ :=
  let inv_scale := fdiv rnd (ofInt rnd dst_size) (ofInt rnd src_size)
  fdiv rnd 1 inv_scale

/-- Lines 171-172 of `resize`: `int sx = std::floor(x*scale_x)` and the value
`min(sx, src_width - 1)` stored to `x_ofs[x]`. -/
def resize_sx (rnd : ℚ → ℚ) (scale_x : ℚ) (src_width : Int) (x : Int) : Int :=
  let sx := toInt (ffloor (fmul rnd (ofInt rnd x) scale_x))
  min sx (src_width - 1)

/-- Line 178 of `resize`: `int sy = min(std::floor(y*scale_y), src_height - 1)`.
The arguments are a `double` and an `int`, so `min` is the macro
`a < b ? a : b`, evaluated in `double` and converted to `int`. -/
def resize_sy (rnd : ℚ → ℚ) (scale_y : ℚ) (src_height : Int) (y : Int) : Int :=
  let a := ffloor (fmul rnd (ofInt rnd y) scale_y)
  let b := ofInt rnd (src_height - 1)
  toInt (if a < b then a else b)

/-- State of the two inner loops of `resize`: the column `x`, which the second
loop takes over from the first, and the destination buffer. -/
structure RowState (α : Type) where
  x : Int
  dst : Nat → α

/-- The loop `for (x = 0; x <= dst_width - 2; x += 2)` of `resize` (lines
181-187), from state `s` on.  `S` and `D` are the offsets of the row pointers
`S` and `D` in the source and the destination buffer. -/
def resizePairs {α : Type} (src : Nat → α) (src_size : Nat) (x_ofs : Nat → Int)
    (dst_size : Nat) (S D dst_width : Int) (s : RowState α) : Option (RowState α) :=
  if s.x ≤ dst_width - 2 then
    (readAt dst_width.toNat x_ofs s.x).bind fun o0 =>
    (readAt src_size src (S + o0)).bind fun t0 =>
    (readAt dst_width.toNat x_ofs (s.x + 1)).bind fun o1 =>
    (readAt src_size src (S + o1)).bind fun t1 =>
    (storeAt dst_size s.dst (D + s.x) t0).bind fun d0 =>
    (storeAt dst_size d0 (D + (s.x + 1)) t1).bind fun d1 =>
    resizePairs src src_size x_ofs dst_size S D dst_width { x := s.x + 2, dst := d1 }
  else some s
termination_by (dst_width - s.x).toNat
decreasing_by
  simp_wf
  omega

/-- The loop `for (; x < dst_width; x++)` of `resize` (lines 189-190), from
state `s` on. -/
def resizeTail {α : Type} (src : Nat → α) (src_size : Nat) (x_ofs : Nat → Int)
    (dst_size : Nat) (S D dst_width : Int) (s : RowState α) : Option (RowState α) :=
  if s.x < dst_width then
    (readAt dst_width.toNat x_ofs s.x).bind fun o =>
    (readAt src_size src (S + o)).bind fun t =>
    (storeAt dst_size s.dst (D + s.x) t).bind fun d =>
    resizeTail src src_size x_ofs dst_size S D dst_width { x := s.x + 1, dst := d }
  else some s
termination_by (dst_width - s.x).toNat
decreasing_by
  simp_wf
  omega

/-- Body of the loop over `y` of `resize` (lines 177-190). -/
def resizeRow {α : Type} (rnd : ℚ → ℚ) (src : Nat → α) (x_ofs : Nat → Int) (scale_y : ℚ)
    (src_width src_height dst_width dst_height : Int) (y : Nat) (dst : Nat → α) :
    Option (Nat → α) :=
  let D := (y : Int) * dst_width
  let sy := resize_sy rnd scale_y src_height (y : Int)
  let S := sy * src_width
  (resizePairs src (src_width * src_height).toNat x_ofs (dst_width * dst_height).toNat
    S D dst_width { x := 0, dst := dst }).bind fun s1 =>
  (resizeTail src (src_width * src_height).toNat x_ofs (dst_width * dst_height).toNat
    S D dst_width s1).bind fun s2 =>
  some s2.dst

/-- The function template
`resize(T* src, T* dst, int src_width, int src_height, int dst_width, int dst_height)`:
the content of `dst` after the call.  `src` has `src_width * src_height`
elements, `dst` has `dst_width * dst_height`, `x_ofs` has `dst_width`; `rnd`
is the rounding of the `double` operations. -/
def resize {α : Type} (rnd : ℚ → ℚ) (src dst : Nat → α)
    (src_width src_height dst_width dst_height : Int) : Option (Nat → α) :=
  let scale_x := resize_scale rnd src_width dst_width
  let scale_y := resize_scale rnd src_height dst_height
  (forLoopM
    (fun x m => storeAt dst_width.toNat m (x : Int) (resize_sx rnd scale_x src_width (x : Int)))
    dst_width.toNat 0 (fun _ => 0)).bind fun x_ofs =>
  forLoopM
    (fun y d => resizeRow rnd src x_ofs scale_y src_width src_height dst_width dst_height y d)
    dst_height.toNat 0 dst

/-- The source index of nearest-neighbour resizing in exact integer terms:
`min(floor(x * src_size / dst_size), src_size - 1)`. -/
def resize_index_spec (src_size dst_size x : Int) : Int :=
  min ⌊((x : ℚ) * (src_size : ℚ)) / (dst_size : ℚ)⌋ (src_size - 1)

/-! ## Loop rules -/

theorem forLoop_inv {σ : Type} (body : Nat → σ → σ) (P : Nat → σ → Prop) :
    ∀ (n lo : Nat) (s : σ), P lo s →
      (∀ i t, lo ≤ i → i < lo + n → P i t → P (i + 1) (body i t)) →
      P (lo + n) (forLoop body n lo s) := by
  intro n
  induction n with
  | zero => intro lo s h0 _; simpa [forLoop] using h0
  | succ n ih =>
    intro lo s h0 hstep
    have h1 : P (lo + 1) (body lo s) := hstep lo s (le_refl _) (by omega) h0
    have h2 := ih (lo + 1) (body lo s) h1
      (fun i t hi hlt hp => hstep i t (by omega) (by omega) hp)
    have e : lo + 1 + n = lo + (n + 1) := by omega
    rw [e] at h2
    simpa [forLoop] using h2

theorem forLoopM_inv {σ : Type} (body : Nat → σ → Option σ) (P : Nat → σ → Prop) :
    ∀ (n lo : Nat) (s : σ), P lo s →
      (∀ i t, lo ≤ i → i < lo + n → P i t → ∃ u, body i t = some u ∧ P (i + 1) u) →
      ∃ u, forLoopM body n lo s = some u ∧ P (lo + n) u := by
  intro n
  induction n with
  | zero => intro lo s h0 _; exact ⟨s, by simp [forLoopM], by simpa using h0⟩
  | succ n ih =>
    intro lo s h0 hstep
    obtain ⟨t, ht, h1⟩ := hstep lo s (le_refl _) (by omega) h0
    obtain ⟨u, hu, h2⟩ := ih (lo + 1) t h1
      (fun i t hi hlt hp => hstep i t (by omega) (by omega) hp)
    have e : lo + 1 + n = lo + (n + 1) := by omega
    rw [e] at h2
    exact ⟨u, by simp [forLoopM, ht, hu], h2⟩

/-! ## The constructor fills the tables in row-major order -/

theorem ctorPixel_inv (rnd : ℚ → ℚ) (raw : RegistrationImpl) (y x : Nat) (hx : x < 512)
    (s : CtorState) (h : CtorInv rnd raw (y * 512 + x) s) :
    CtorInv rnd raw (y * 512 + x + 1) (ctorPixel rnd y x s) := by
  obtain ⟨h1, h2, h3, h4, h5, h6, h7⟩ := h
  have em : (y * 512 + x) % 512 = x := by omega
  have ed : (y * 512 + x) / 512 = y := by omega
  refine ⟨by simp [ctorPixel, h1], by simp [ctorPixel, h2], by simp [ctorPixel, h3],
    by simp [ctorPixel, h4], by simp [ctorPixel, h5], by simp [ctorPixel, h6], ?_⟩
  intro j hj
  by_cases hjk : j = y * 512 + x
  · subst hjk
    simp only [ctorPixel, h1, h2, h3, h4, h5, h6, Function.update_same, em, ed, and_self]
  · have hlt : j < y * 512 + x := by omega
    have := h7 j hlt
    simp only [ctorPixel, h1, h2, h3, h4, Function.update_noteq hjk]
    exact this

theorem ctorRow_inv (rnd : ℚ → ℚ) (raw : RegistrationImpl) (y : Nat) (s : CtorState)
    (h : CtorInv rnd raw (y * 512) s) :
    CtorInv rnd raw ((y + 1) * 512) (forLoop (fun x s => ctorPixel rnd y x s) 512 0 s) := by
  have := forLoop_inv (fun x s => ctorPixel rnd y x s)
    (fun x t => CtorInv rnd raw (y * 512 + x) t) 512 0 s (by simpa using h)
    (fun i t _ hi hp => by
      have := ctorPixel_inv rnd raw y i (by omega) t hp
      simpa [Nat.add_assoc] using this)
  have e : y * 512 + (0 + 512) = (y + 1) * 512 := by omega
  simpa [e] using this

theorem new_inv (rnd : ℚ → ℚ) (raw : RegistrationImpl) :
    CtorInv rnd raw (424 * 512)
      (forLoop (fun y s => forLoop (fun x s => ctorPixel rnd y x s) 512 0 s) 424 0
        { self := raw, map_dist := 0, map_x := 0, map_y := 0, map_yi := 0 }) := by
  have := forLoop_inv (fun y s => forLoop (fun x s => ctorPixel rnd y x s) 512 0 s)
    (fun y t => CtorInv rnd raw (y * 512) t) 424 0
    { self := raw, map_dist := 0, map_x := 0, map_y := 0, map_yi := 0 }
    (by simp [CtorInv])
    (fun i t _ _ hp => ctorRow_inv rnd raw i t hp)
  simpa using this

/-- Every table entry of a constructed object, by linear index. -/
theorem new_spec (rnd : ℚ → ℚ) (raw : RegistrationImpl) :
    (RegistrationImpl.new rnd raw).depth = raw.depth ∧
    (RegistrationImpl.new rnd raw).color = raw.color ∧
    ∀ j, j < 424 * 512 →
      (RegistrationImpl.new rnd raw).distort_map j =
        distort_index rnd raw.depth (j % 512) (j / 512) ∧
      (RegistrationImpl.new rnd raw).depth_to_color_map_x j =
        (depth_to_color rnd raw.depth raw.color (ofInt rnd ((j % 512 : Nat) : Int))
          (ofInt rnd ((j / 512 : Nat) : Int))).1 ∧
      (RegistrationImpl.new rnd raw).depth_to_color_map_y j =
        (depth_to_color rnd raw.depth raw.color (ofInt rnd ((j % 512 : Nat) : Int))
          (ofInt rnd ((j / 512 : Nat) : Int))).2 ∧
      (RegistrationImpl.new rnd raw).depth_to_color_map_yi j =
        toInt (fadd rnd (depth_to_color rnd raw.depth raw.color
          (ofInt rnd ((j % 512 : Nat) : Int)) (ofInt rnd ((j / 512 : Nat) : Int))).2 (1 / 2)) := by
  have h := new_inv rnd raw
  unfold CtorInv at h
  unfold RegistrationImpl.new
  exact ⟨h.2.2.2.2.1, h.2.2.2.2.2.1, h.2.2.2.2.2.2⟩

theorem new_depth (rnd : ℚ → ℚ) (raw : RegistrationImpl) :
    (RegistrationImpl.new rnd raw).depth = raw.depth := (new_spec rnd raw).1

theorem new_color (rnd : ℚ → ℚ) (raw : RegistrationImpl) :
    (RegistrationImpl.new rnd raw).color = raw.color := (new_spec rnd raw).2.1

theorem new_distort_map (rnd : ℚ → ℚ) (raw : RegistrationImpl) (x y : Nat)
    (hx : x < 512) (hy : y < 424) :
    (RegistrationImpl.new rnd raw).distort_map (y * 512 + x) =
      distort_index rnd raw.depth x y := by
  have h := ((new_spec rnd raw).2.2 (y * 512 + x) (by omega)).1
  have em : (y * 512 + x) % 512 = x := by omega
  have ed : (y * 512 + x) / 512 = y := by omega
  rw [em, ed] at h
  exact h

theorem new_map_x (rnd : ℚ → ℚ) (raw : RegistrationImpl) (x y : Nat)
    (hx : x < 512) (hy : y < 424) :
    (RegistrationImpl.new rnd raw).depth_to_color_map_x (y * 512 + x) =
      (depth_to_color rnd raw.depth raw.color (ofInt rnd (x : Int)) (ofInt rnd (y : Int))).1 := by
  have h := ((new_spec rnd raw).2.2 (y * 512 + x) (by omega)).2.1
  have em : (y * 512 + x) % 512 = x := by omega
  have ed : (y * 512 + x) / 512 = y := by omega
  rw [em, ed] at h
  exact h

theorem new_map_y (rnd : ℚ → ℚ) (raw : RegistrationImpl) (x y : Nat)
    (hx : x < 512) (hy : y < 424) :
    (RegistrationImpl.new rnd raw).depth_to_color_map_y (y * 512 + x) =
      (depth_to_color rnd raw.depth raw.color (ofInt rnd (x : Int)) (ofInt rnd (y : Int))).2 := by
  have h := ((new_spec rnd raw).2.2 (y * 512 + x) (by omega)).2.2.1
  have em : (y * 512 + x) % 512 = x := by omega
  have ed : (y * 512 + x) / 512 = y := by omega
  rw [em, ed] at h
  exact h

theorem new_map_yi (rnd : ℚ → ℚ) (raw : RegistrationImpl) (x y : Nat)
    (hx : x < 512) (hy : y < 424) :
    (RegistrationImpl.new rnd raw).depth_to_color_map_yi (y * 512 + x) =
      toInt (fadd rnd
        (depth_to_color rnd raw.depth raw.color (ofInt rnd (x : Int)) (ofInt rnd (y : Int))).2
        (1 / 2)) := by
  have h := ((new_spec rnd raw).2.2 (y * 512 + x) (by omega)).2.2.2
  have em : (y * 512 + x) % 512 = x := by omega
  have ed : (y * 512 + x) / 512 = y := by omega
  rw [em, ed] at h
  exact h

theorem distort_index_range (rnd : ℚ → ℚ) (depth : IrCameraParams) (x y : Nat) :
    distort_index rnd depth x y = -1 ∨
      (0 ≤ distort_index rnd depth x y ∧ distort_index rnd depth x y < (size_depth : Int)) := by
  unfold distort_index
  simp only
  split
  · left; rfl
  · right
    rename_i h
    simp only [not_or, not_lt, ge_iff_le, not_le] at h
    obtain ⟨h1, h2, h3, h4⟩ := h
    simp only [size_depth]
    constructor <;> omega

theorem new_distort_map_range (rnd : ℚ → ℚ) (raw : RegistrationImpl) (i : Nat)
    (hi : i < size_depth) :
    (RegistrationImpl.new rnd raw).distort_map i < (size_depth : Int) := by
  have hx : i % 512 < 512 := by omega
  have hy : i / 512 < 424 := by simp only [size_depth] at hi; omega
  have e : i = i / 512 * 512 + i % 512 := by omega
  have h := new_distort_map rnd raw (i % 512) (i / 512) hx hy
  rw [← e] at h
  rw [h]
  rcases distort_index_range rnd raw.depth (i % 512) (i / 512) with h1 | h1
  · rw [h1]; simp [size_depth]
  · exact h1.2

/-! ## The frame overloads, entry by entry -/

theorem tabulate_spec {α : Type} (f : Nat → α) (n : Nat) (init : Nat → α) :
    ∀ j, j < n → forLoop (fun i m => Function.update m i (f i)) n 0 init j = f j := by
  have := forLoop_inv (fun i m => Function.update m i (f i))
    (fun i m => ∀ j, j < i → m j = f j) n 0 init (by intro j hj; omega)
    (fun i t _ _ hp j hj => by
      by_cases hji : j = i
      · subst hji; simp
      · show Function.update t i (f i) j = f j
        rw [Function.update_noteq hji]; exact hp j (by omega))
  simpa using this

theorem map_c_off_rgb_range (rnd : ℚ → ℚ) (self : RegistrationImpl) (i : Nat)
    (h : ¬ self.map_c_off_rgb rnd i < 0) :
    0 ≤ self.map_c_off_rgb rnd i ∧ self.map_c_off_rgb rnd i < (size_color : Int) := by
  unfold RegistrationImpl.map_c_off_rgb at h ⊢
  simp only at h ⊢
  split at h
  · exact absurd (by decide) h
  · split at h
    · exact absurd (by decide) h
    · rename_i h1 h2
      rw [if_neg h1, if_neg h2]
      simp only [not_or, not_lt, ge_iff_le, not_le] at h2
      exact h2

theorem apply_rgb_spec (rnd : ℚ → ℚ) (self : RegistrationImpl) (rgb registered : Nat → Nat) :
    ∃ out, self.apply_rgb rnd rgb registered = some out ∧
      ∀ j, out j =
        if j < 389 * 512 - 26 * 512 then self.rgbValue rnd rgb (j + 26 * 512) else registered j := by
  obtain ⟨u, hu, hP⟩ := forLoopM_inv
    (rgbBand rgb (forLoop (fun i m => Function.update m i (self.map_c_off_rgb rnd i))
      size_depth 0 (fun _ => 0)))
    (fun i s => s.registered_data = i - 26 * 512 ∧
      ∀ j, s.registered j =
        if j < i - 26 * 512 then self.rgbValue rnd rgb (j + 26 * 512) else registered j)
    (389 * 512 - 26 * 512) (26 * 512) { registered_data := 0, registered := registered }
    ⟨by simp, by intro j; simp⟩
    (by
      intro i t hlo hhi ⟨hp, hreg⟩
      have hi : i < size_depth := by simp only [size_depth]; omega
      have hm := tabulate_spec (fun i => self.map_c_off_rgb rnd i) size_depth (fun _ => 0) i hi
      simp only at hm
      have hw : t.registered_data < size_depth := by rw [hp]; simp only [size_depth]; omega
      have hv : (if self.map_c_off_rgb rnd i < 0 then some 0
            else readAt size_color rgb (self.map_c_off_rgb rnd i)) =
          some (self.rgbValue rnd rgb i) := by
        unfold RegistrationImpl.rgbValue
        by_cases hneg : self.map_c_off_rgb rnd i < 0
        · simp [hneg]
        · have hr := map_c_off_rgb_range rnd self i hneg
          simp [hneg, readAt, hr.1, hr.2]
      refine ⟨{ registered_data := t.registered_data + 1,
                registered := Function.update t.registered t.registered_data
                  (self.rgbValue rnd rgb i) }, ?_, ?_, ?_⟩
      · simp only [rgbBand, hm, hv, writeAt, hw, if_true, Option.bind_some, Option.some_bind]
      · simp only [hp]; omega
      · intro j
        simp only
        by_cases hj : j = t.registered_data
        · subst hj
          have e : t.registered_data + 26 * 512 = i := by omega
          have hlt : t.registered_data < i + 1 - 26 * 512 := by omega
          rw [Function.update_same, if_pos hlt, e]
        · rw [Function.update_noteq hj, hreg j]
          have hiff : (j < i - 26 * 512) ↔ (j < i + 1 - 26 * 512) := by omega
          simp only [hiff])
  refine ⟨u.registered, ?_, ?_⟩
  · unfold RegistrationImpl.apply_rgb
    simp only [hu, Option.map_some']
  · intro j
    have := hP.2 j
    have e : 26 * 512 + (389 * 512 - 26 * 512) - 26 * 512 = 389 * 512 - 26 * 512 := by omega
    rw [e] at this
    exact this

theorem map_c_off_depth_eq (rnd : ℚ → ℚ) (self : RegistrationImpl) (depth : Nat → Nat) (i : Nat)
    (h : self.distort_map i < (size_depth : Int)) :
    self.map_c_off_depth rnd depth i = some (self.depthOffset rnd depth i) := by
  unfold RegistrationImpl.map_c_off_depth RegistrationImpl.depthOffset
  simp only
  by_cases h0 : self.distort_map i < 0
  · simp only [h0, if_true]
  · have h0' : 0 ≤ self.distort_map i := not_lt.mp h0
    simp only [h0, if_false, readAt, h0', h, and_self, if_true, Option.some_bind]
    by_cases hd : depth (self.distort_map i).toNat ≤ 0
    · simp only [hd, if_true]
    · simp only [hd, if_false]
      split <;> rfl

theorem depth_first_loop (rnd : ℚ → ℚ) (self : RegistrationImpl) (depth : Nat → Nat)
    (H : ∀ i, i < size_depth → self.distort_map i < (size_depth : Int)) :
    ∃ m, forLoopM
        (fun i m => (self.map_c_off_depth rnd depth i).bind fun c => some (Function.update m i c))
        size_depth 0 (fun _ => 0) = some m ∧
      ∀ j, j < size_depth → m j = self.depthOffset rnd depth j := by
  obtain ⟨m, hm, hP⟩ := forLoopM_inv
    (fun i m => (self.map_c_off_depth rnd depth i).bind fun c => some (Function.update m i c))
    (fun i m => ∀ j, j < i → m j = self.depthOffset rnd depth j) size_depth 0 (fun _ => 0)
    (by intro j hj; omega)
    (by
      intro i t _ hi hp
      have hi' : i < size_depth := by omega
      refine ⟨Function.update t i (self.depthOffset rnd depth i), ?_, ?_⟩
      · simp only [map_c_off_depth_eq rnd self depth i (H i hi'), Option.some_bind]
      · intro j hj
        by_cases hji : j = i
        · subst hji; simp
        · rw [Function.update_noteq hji]; exact hp j (by omega))
  exact ⟨m, hm, by simpa using hP⟩

theorem apply_depth_spec (rnd : ℚ → ℚ) (self : RegistrationImpl) (depth undistorted : Nat → Nat)
    (H : ∀ i, i < size_depth → self.distort_map i < (size_depth : Int)) :
    ∃ out, self.apply_depth rnd depth undistorted = some out ∧
      ∀ j, out j =
        if j < 389 * 512 - 26 * 512 then self.depthValue rnd depth (j + 26 * 512)
        else undistorted j := by
  obtain ⟨m, hm, hmj⟩ := depth_first_loop rnd self depth H
  obtain ⟨u, hu, hP⟩ := forLoopM_inv (depthBand depth m)
    (fun i s => s.depth_data = i ∧ s.undistorted_data = i - 26 * 512 ∧
      ∀ j, s.undistorted j =
        if j < i - 26 * 512 then self.depthValue rnd depth (j + 26 * 512) else undistorted j)
    (389 * 512 - 26 * 512) (26 * 512)
    { depth_data := 0 + 26 * 512, undistorted_data := 0, undistorted := undistorted }
    ⟨by simp, by simp, by intro j; simp⟩
    (by
      intro i t hlo hhi ⟨hd, hp, hreg⟩
      have hi : i < size_depth := by simp only [size_depth]; omega
      have hw : t.undistorted_data < size_depth := by rw [hp]; simp only [size_depth]; omega
      have hv : (if m i < 0 then some 0 else readAt size_depth depth (t.depth_data : Int)) =
          some (self.depthValue rnd depth i) := by
        unfold RegistrationImpl.depthValue
        rw [hmj i hi, hd]
        by_cases hneg : self.depthOffset rnd depth i < 0
        · simp [hneg]
        · have h1 : (i : Int) < (size_depth : Int) := by exact_mod_cast hi
          simp [hneg, readAt, h1]
      refine ⟨{ depth_data := t.depth_data + 1, undistorted_data := t.undistorted_data + 1,
                undistorted := Function.update t.undistorted t.undistorted_data
                  (self.depthValue rnd depth i) }, ?_, ?_, ?_, ?_⟩
      · simp only [depthBand, hv, writeAt, hw, if_true, Option.some_bind]
      · simp only [hd]
      · simp only [hp]; omega
      · intro j
        simp only
        by_cases hj : j = t.undistorted_data
        · subst hj
          have e : t.undistorted_data + 26 * 512 = i := by omega
          have hlt : t.undistorted_data < i + 1 - 26 * 512 := by omega
          rw [Function.update_same, if_pos hlt, e]
        · rw [Function.update_noteq hj, hreg j]
          have hiff : (j < i - 26 * 512) ↔ (j < i + 1 - 26 * 512) := by omega
          simp only [hiff])
  refine ⟨u.undistorted, ?_, ?_⟩
  · unfold RegistrationImpl.apply_depth
    simp only [hm, hu, Option.map_some', Option.some_bind]
  · intro j
    have := hP.2.2 j
    have e : 26 * 512 + (389 * 512 - 26 * 512) - 26 * 512 = 389 * 512 - 26 * 512 := by omega
    rw [e] at this
    exact this

theorem depthOffset_nonneg_iff (rnd : ℚ → ℚ) (self : RegistrationImpl) (depth : Nat → Nat)
    (i : Nat) :
    ¬ self.depthOffset rnd depth i < 0 ↔
      (0 ≤ self.distort_map i ∧ 0 < depth (self.distort_map i).toNat ∧
        0 ≤ self.c_off rnd i ∧ self.c_off rnd i < 1920 * 1080) := by
  unfold RegistrationImpl.depthOffset
  simp only [size_color]
  push_cast
  generalize self.c_off rnd i = c
  generalize depth (self.distort_map i).toNat = d
  generalize self.distort_map i = m
  split_ifs with h1 h2 h3 <;> constructor <;> intro h <;> omega

/-! ## Facts about the object built from the default parameters -/

theorem default_distort_map_13312 :
    (RegistrationImpl.new roundF32 RegistrationImpl.raw).distort_map 13312 = 17933 := by
  have h := new_distort_map roundF32 RegistrationImpl.raw 0 26 (by omega) (by omega)
  have e : (13312 : Nat) = 26 * 512 + 0 := by norm_num
  rw [e, h]
  decide!

/-! ## Band restriction (C1) -/

/-- C1, refuted as stated: with the tables of the default camera, a colour
(resp. depth) frame holding 1 everywhere and an output buffer holding 2
everywhere, both frame overloads return with output entry 0 (row 0, outside
rows 26..388) changed. -/
theorem C1_row_zero_is_overwritten :
    (∃ o, (RegistrationImpl.new roundF32 RegistrationImpl.raw).apply_rgb roundF32
        (fun _ => 1) (fun _ => 2) = some o ∧ o 0 ≠ 2) ∧
    (∃ o, (RegistrationImpl.new roundF32 RegistrationImpl.raw).apply_depth roundF32
        (fun _ => 1) (fun _ => 2) = some o ∧ o 0 ≠ 2) := by
  constructor
  · obtain ⟨o, ho, hj⟩ := apply_rgb_spec roundF32
      (RegistrationImpl.new roundF32 RegistrationImpl.raw) (fun _ => 1) (fun _ => 2)
    refine ⟨o, ho, ?_⟩
    rw [hj 0, if_pos (by norm_num)]
    unfold RegistrationImpl.rgbValue
    split <;> simp
  · obtain ⟨o, ho, hj⟩ := apply_depth_spec roundF32
      (RegistrationImpl.new roundF32 RegistrationImpl.raw) (fun _ => 1) (fun _ => 2)
      (new_distort_map_range roundF32 RegistrationImpl.raw)
    refine ⟨o, ho, ?_⟩
    rw [hj 0, if_pos (by norm_num)]
    unfold RegistrationImpl.depthValue
    split <;> simp

/-- C1, amended: for every camera, every frame and every initial content of
the output buffer, both frame overloads return, having written exactly the
output entries `0 .. 363*512-1` (rows 0..362): entry `j` there receives what
the band iteration `i = j + 26*512` computed, and every entry from `363*512`
on (rows 363..423) keeps the value it had before the call. -/
theorem C1_band_is_written_from_row_zero (rnd : ℚ → ℚ) (raw : RegistrationImpl)
    (rgb depth out : Nat → Nat) :
    (∃ o, (RegistrationImpl.new rnd raw).apply_rgb rnd rgb out = some o ∧
      (∀ j, j < 363 * 512 →
        o j = (RegistrationImpl.new rnd raw).rgbValue rnd rgb (j + 26 * 512)) ∧
      (∀ j, 363 * 512 ≤ j → o j = out j)) ∧
    (∃ o, (RegistrationImpl.new rnd raw).apply_depth rnd depth out = some o ∧
      (∀ j, j < 363 * 512 →
        o j = (RegistrationImpl.new rnd raw).depthValue rnd depth (j + 26 * 512)) ∧
      (∀ j, 363 * 512 ≤ j → o j = out j)) := by
  constructor
  · obtain ⟨o, ho, hj⟩ := apply_rgb_spec rnd (RegistrationImpl.new rnd raw) rgb out
    refine ⟨o, ho, ?_, ?_⟩
    · intro j h; rw [hj j, if_pos (by omega)]
    · intro j h; rw [hj j, if_neg (by omega)]
  · obtain ⟨o, ho, hj⟩ := apply_depth_spec rnd (RegistrationImpl.new rnd raw) depth out
      (new_distort_map_range rnd raw)
    refine ⟨o, ho, ?_, ?_⟩
    · intro j h; rw [hj j, if_pos (by omega)]
    · intro j h; rw [hj j, if_neg (by omega)]

/-! ## The depth overload (C2, C3) -/

/-- C2: for every camera, depth frame and band index `i` whose `distort_map`
entry is non-negative, if the raw sample `depth[distort_map[i]]` is `≤ 0` then
the call returns and the value it stores for `i` (iteration `i` of the band
loop, which writes output entry `i - 26*512`) is 0. -/
theorem C2_validity_propagation (rnd : ℚ → ℚ) (raw : RegistrationImpl) (depth out : Nat → Nat)
    (i : Nat) (hlo : 26 * 512 ≤ i) (hhi : i < 389 * 512)
    (hmap : 0 ≤ (RegistrationImpl.new rnd raw).distort_map i)
    (hz : depth ((RegistrationImpl.new rnd raw).distort_map i).toNat ≤ 0) :
    ∃ o, (RegistrationImpl.new rnd raw).apply_depth rnd depth out = some o ∧
      o (i - 26 * 512) = 0 := by
  obtain ⟨o, ho, hj⟩ := apply_depth_spec rnd (RegistrationImpl.new rnd raw) depth out
    (new_distort_map_range rnd raw)
  refine ⟨o, ho, ?_⟩
  have e : i - 26 * 512 + 26 * 512 = i := by omega
  rw [hj (i - 26 * 512), if_pos (by omega), e]
  unfold RegistrationImpl.depthValue RegistrationImpl.depthOffset
  rw [if_neg (not_lt.mpr hmap), if_pos hz]
  simp

/-- C2, witness: default camera, band index `13312` (pixel `(0, 26)`, whose
`distort_map` entry is `17933`), a depth frame that is 0 at `17933` and 1000
elsewhere. -/
theorem C2_validity_propagation_witness :
    (26 * 512 ≤ 13312 ∧ 13312 < 389 * 512 ∧
      0 ≤ (RegistrationImpl.new roundF32 RegistrationImpl.raw).distort_map 13312 ∧
      (fun k : Nat => if k = 17933 then 0 else 1000)
        ((RegistrationImpl.new roundF32 RegistrationImpl.raw).distort_map 13312).toNat ≤ 0) ∧
    ∃ o, (RegistrationImpl.new roundF32 RegistrationImpl.raw).apply_depth roundF32
        (fun k : Nat => if k = 17933 then 0 else 1000) (fun _ => 7) = some o ∧
      o (13312 - 26 * 512) = 0 :=
  have h1 : 0 ≤ (RegistrationImpl.new roundF32 RegistrationImpl.raw).distort_map 13312 := by
    rw [default_distort_map_13312]; decide
  have h2 : (fun k : Nat => if k = 17933 then 0 else 1000)
      ((RegistrationImpl.new roundF32 RegistrationImpl.raw).distort_map 13312).toNat ≤ 0 := by
    rw [default_distort_map_13312]; decide
  ⟨⟨by decide, by decide, h1, h2⟩,
    C2_validity_propagation roundF32 RegistrationImpl.raw
      (fun k : Nat => if k = 17933 then 0 else 1000) (fun _ => 7) 13312
      (by decide) (by decide) h1 h2⟩

/-- C3: for every camera, depth frame and band index `i`, the call returns and
the value it produces for `i` (stored at output entry `i - 26*512`) is
`depth[i]`, the raw sample at the same row and column, when
`distort_map[i] >= 0`, `depth[distort_map[i]] > 0` and the colour offset
`c_off` computed for `i` lies in `[0, 1920*1080)`; otherwise it is 0. -/
theorem C3_depth_pass_through (rnd : ℚ → ℚ) (raw : RegistrationImpl) (depth out : Nat → Nat)
    (i : Nat) (hlo : 26 * 512 ≤ i) (hhi : i < 389 * 512) :
    ∃ o, (RegistrationImpl.new rnd raw).apply_depth rnd depth out = some o ∧
      o (i - 26 * 512) =
        if 0 ≤ (RegistrationImpl.new rnd raw).distort_map i ∧
            0 < depth ((RegistrationImpl.new rnd raw).distort_map i).toNat ∧
            0 ≤ (RegistrationImpl.new rnd raw).c_off rnd i ∧
            (RegistrationImpl.new rnd raw).c_off rnd i < 1920 * 1080
        then depth i else 0 := by
  obtain ⟨o, ho, hj⟩ := apply_depth_spec rnd (RegistrationImpl.new rnd raw) depth out
    (new_distort_map_range rnd raw)
  refine ⟨o, ho, ?_⟩
  have e : i - 26 * 512 + 26 * 512 = i := by omega
  rw [hj (i - 26 * 512), if_pos (by omega), e]
  unfold RegistrationImpl.depthValue
  by_cases hc : 0 ≤ (RegistrationImpl.new rnd raw).distort_map i ∧
      0 < depth ((RegistrationImpl.new rnd raw).distort_map i).toNat ∧
      0 ≤ (RegistrationImpl.new rnd raw).c_off rnd i ∧
      (RegistrationImpl.new rnd raw).c_off rnd i < 1920 * 1080
  · rw [if_pos hc, if_neg ((depthOffset_nonneg_iff rnd _ depth i).mpr hc)]
  · rw [if_neg hc, if_pos (not_not.mp (fun h => hc ((depthOffset_nonneg_iff rnd _ depth i).mp h)))]

/-- C3, witness: default camera, band index `13312` (pixel `(0, 26)`) and the
depth frame `depth[k] = k + 1`. -/
theorem C3_depth_pass_through_witness :
    (26 * 512 ≤ 13312 ∧ 13312 < 389 * 512) ∧
    ∃ o, (RegistrationImpl.new roundF32 RegistrationImpl.raw).apply_depth roundF32
        (fun k => k + 1) (fun _ => 7) = some o ∧
      o (13312 - 26 * 512) =
        if 0 ≤ (RegistrationImpl.new roundF32 RegistrationImpl.raw).distort_map 13312 ∧
            0 < (fun k => k + 1)
              ((RegistrationImpl.new roundF32 RegistrationImpl.raw).distort_map 13312).toNat ∧
            0 ≤ (RegistrationImpl.new roundF32 RegistrationImpl.raw).c_off roundF32 13312 ∧
            (RegistrationImpl.new roundF32 RegistrationImpl.raw).c_off roundF32 13312 < 1920 * 1080
        then (fun k => k + 1) 13312 else 0 :=
  ⟨⟨by decide, by decide⟩,
    C3_depth_pass_through roundF32 RegistrationImpl.raw (fun k => k + 1) (fun _ => 7) 13312
      (by decide) (by decide)⟩

/-! ## The colour overload (C4) -/

/-- C4: for every table content, colour frame and band index `i`, the call
returns and the value it produces for `i` (stored at output entry
`i - 26*512`) is `rgb[c_off]` when `distort_map[i] >= 0` and
`0 <= c_off < 1920*1080`, and the zero pixel otherwise, where `c_off` is
`(int)(depth_to_color_map_x[i] * color.fx + (color.cx + 0.5f))
 + depth_to_color_map_yi[i] * 1920`, the sums and the product being float
operations. -/
theorem C4_colour_registration (rnd : ℚ → ℚ) (self : RegistrationImpl) (rgb out : Nat → Nat)
    (i : Nat) (hlo : 26 * 512 ≤ i) (hhi : i < 389 * 512) :
    ∃ o, self.apply_rgb rnd rgb out = some o ∧
      o (i - 26 * 512) =
        if 0 ≤ self.distort_map i ∧
            0 ≤ toInt (fadd rnd (fmul rnd (self.depth_to_color_map_x i) self.color.fx)
                  (fadd rnd self.color.cx (1 / 2))) + self.depth_to_color_map_yi i * 1920 ∧
            toInt (fadd rnd (fmul rnd (self.depth_to_color_map_x i) self.color.fx)
                  (fadd rnd self.color.cx (1 / 2))) + self.depth_to_color_map_yi i * 1920
              < 1920 * 1080
        then rgb (toInt (fadd rnd (fmul rnd (self.depth_to_color_map_x i) self.color.fx)
                  (fadd rnd self.color.cx (1 / 2))) + self.depth_to_color_map_yi i * 1920).toNat
        else 0 := by
  obtain ⟨o, ho, hj⟩ := apply_rgb_spec rnd self rgb out
  refine ⟨o, ho, ?_⟩
  have e : i - 26 * 512 + 26 * 512 = i := by omega
  rw [hj (i - 26 * 512), if_pos (by omega), e]
  show self.rgbValue rnd rgb i =
    if 0 ≤ self.distort_map i ∧ 0 ≤ self.c_off rnd i ∧ self.c_off rnd i < 1920 * 1080
    then rgb (self.c_off rnd i).toNat else 0
  unfold RegistrationImpl.rgbValue RegistrationImpl.map_c_off_rgb
  simp only [size_color]
  push_cast
  generalize self.c_off rnd i = c
  generalize self.distort_map i = m
  by_cases h1 : m < 0
  · rw [if_pos h1, if_pos (by decide), if_neg (by omega)]
  · by_cases h2 : c < 0 ∨ c ≥ 2073600
    · rw [if_neg h1, if_pos h2, if_pos (by decide), if_neg (by omega)]
    · rw [if_neg h1, if_neg h2, if_neg (by omega), if_pos (by omega)]

/-- C4, witness: the object of the default camera, band index `13312` (pixel
`(0, 26)`) and the colour frame `rgb[k] = k + 1`. -/
theorem C4_colour_registration_witness :
    (26 * 512 ≤ 13312 ∧ 13312 < 389 * 512) ∧
    ∃ o, (RegistrationImpl.new roundF32 RegistrationImpl.raw).apply_rgb roundF32
        (fun k => k + 1) (fun _ => 7) = some o ∧
      o (13312 - 26 * 512) =
        if 0 ≤ (RegistrationImpl.new roundF32 RegistrationImpl.raw).distort_map 13312 ∧
            0 ≤ toInt (fadd roundF32 (fmul roundF32
                  ((RegistrationImpl.new roundF32 RegistrationImpl.raw).depth_to_color_map_x 13312)
                  (RegistrationImpl.new roundF32 RegistrationImpl.raw).color.fx)
                  (fadd roundF32 (RegistrationImpl.new roundF32 RegistrationImpl.raw).color.cx
                    (1 / 2))) +
                (RegistrationImpl.new roundF32 RegistrationImpl.raw).depth_to_color_map_yi 13312
                  * 1920 ∧
            toInt (fadd roundF32 (fmul roundF32
                  ((RegistrationImpl.new roundF32 RegistrationImpl.raw).depth_to_color_map_x 13312)
                  (RegistrationImpl.new roundF32 RegistrationImpl.raw).color.fx)
                  (fadd roundF32 (RegistrationImpl.new roundF32 RegistrationImpl.raw).color.cx
                    (1 / 2))) +
                (RegistrationImpl.new roundF32 RegistrationImpl.raw).depth_to_color_map_yi 13312
                  * 1920 < 1920 * 1080
        then (fun k => k + 1) (toInt (fadd roundF32 (fmul roundF32
                  ((RegistrationImpl.new roundF32 RegistrationImpl.raw).depth_to_color_map_x 13312)
                  (RegistrationImpl.new roundF32 RegistrationImpl.raw).color.fx)
                  (fadd roundF32 (RegistrationImpl.new roundF32 RegistrationImpl.raw).color.cx
                    (1 / 2))) +
                (RegistrationImpl.new roundF32 RegistrationImpl.raw).depth_to_color_map_yi 13312
                  * 1920).toNat
        else 0 :=
  ⟨⟨by decide, by decide⟩,
    C4_colour_registration roundF32 (RegistrationImpl.new roundF32 RegistrationImpl.raw)
      (fun k => k + 1) (fun _ => 7) 13312 (by decide) (by decide)⟩

/-! ## Table construction (C5) and reads (C6) -/

/-- C5, the code at the failing input: for the default camera and the
undistorted pixel `(256, 0)`, `distort` gives `my = -27779/32768` (about
`-0.85`), whose nearest integer is `-1`, a row outside of `[0, 424)`; the
constructor nevertheless stores the index `0 * 512 + 256` and not the
sentinel, because `(int)(my + 0.5f)` truncates `-0.35` to `0`. -/
theorem C5_negative_row_is_accepted :
    (distort roundF32 IrCameraParams.default 256 0).2 = -27779 / 32768 ∧
    round (distort roundF32 IrCameraParams.default 256 0).1 = 256 ∧
    round (distort roundF32 IrCameraParams.default 256 0).2 = -1 ∧
    (RegistrationImpl.new roundF32 RegistrationImpl.raw).distort_map (0 * 512 + 256) = 256 := by
  refine ⟨by decide!, by decide!, by decide!, ?_⟩
  rw [new_distort_map roundF32 RegistrationImpl.raw 256 0 (by omega) (by omega)]
  decide!

/-- C6: for the tables built by the constructor from any camera, and for every
frame and output buffer, both frame overloads run to completion in the model
in which any access outside of an array ends the call: no read `depth[index]`,
`rgb[c_off]` or `*depth_data` is out of range.  Every `distort_map` entry is
`-1` or an index below `512*424`. -/
theorem C6_no_read_out_of_range (rnd : ℚ → ℚ) (raw : RegistrationImpl)
    (rgb depth registered undistorted : Nat → Nat) :
    ((RegistrationImpl.new rnd raw).apply_rgb rnd rgb registered).isSome = true ∧
    ((RegistrationImpl.new rnd raw).apply_depth rnd depth undistorted).isSome = true ∧
    ∀ i, i < 512 * 424 →
      (RegistrationImpl.new rnd raw).distort_map i = -1 ∨
      (0 ≤ (RegistrationImpl.new rnd raw).distort_map i ∧
        (RegistrationImpl.new rnd raw).distort_map i < 512 * 424) := by
  refine ⟨?_, ?_, ?_⟩
  · obtain ⟨o, ho, _⟩ := apply_rgb_spec rnd (RegistrationImpl.new rnd raw) rgb registered
    rw [ho]; rfl
  · obtain ⟨o, ho, _⟩ := apply_depth_spec rnd (RegistrationImpl.new rnd raw) depth undistorted
      (new_distort_map_range rnd raw)
    rw [ho]; rfl
  · intro i hi
    have h := ((new_spec rnd raw).2.2 i (by omega)).1
    rw [h]
    have := distort_index_range rnd raw.depth (i % 512) (i / 512)
    simpa [size_depth] using this

/-! ## The single-point query (C7, C8) -/

theorem apply_spec (rnd : ℚ → ℚ) (self : RegistrationImpl) (dx dy : Nat) (dz : ℚ)
    (hx : dx < 512) (hy : dy < 424) :
    self.apply rnd (dx : Int) (dy : Int) dz =
      some (fadd rnd (fmul rnd (self.depth_to_color_map_x (dx + dy * 512)) self.color.fx)
              self.color.cx,
            self.depth_to_color_map_y (dx + dy * 512)) := by
  have e : (dx : Int) + (dy : Int) * 512 = ((dx + dy * 512 : Nat) : Int) := by push_cast; ring
  have h0 : (0 : Int) ≤ ((dx + dy * 512 : Nat) : Int) := Int.ofNat_nonneg _
  have h1 : ((dx + dy * 512 : Nat) : Int) < (size_depth : Int) := by
    have : dx + dy * 512 < size_depth := by simp only [size_depth]; omega
    exact_mod_cast this
  unfold RegistrationImpl.apply
  simp only [e, readAt, h0, h1, and_self, if_true, Int.toNat_ofNat, Option.some_bind]

/-- C7, refuted as stated: on the object of the default camera the query
`apply(256, 212, 1000)` returns `cy = 4523957/8192` (about `552.24`), the
unrounded entry of `depth_to_color_map_y`, whereas
`depth_to_color_map_yi[256 + 212*512]` is `552`. -/
theorem C7_cy_is_not_the_rounded_row :
    ∃ cx cy, (RegistrationImpl.new roundF32 RegistrationImpl.raw).apply roundF32 256 212 1000
        = some (cx, cy) ∧
      cy = 4523957 / 8192 ∧
      (RegistrationImpl.new roundF32 RegistrationImpl.raw).depth_to_color_map_yi
        (256 + 212 * 512) = 552 ∧
      cy ≠ (((RegistrationImpl.new roundF32 RegistrationImpl.raw).depth_to_color_map_yi
        (256 + 212 * 512) : Int) : ℚ) := by
  have hy := new_map_y roundF32 RegistrationImpl.raw 256 212 (by omega) (by omega)
  have hyi := new_map_yi roundF32 RegistrationImpl.raw 256 212 (by omega) (by omega)
  have ec : (256 : Nat) + 212 * 512 = 212 * 512 + 256 := by norm_num
  have hv : (depth_to_color roundF32 RegistrationImpl.raw.depth RegistrationImpl.raw.color
      (ofInt roundF32 ((256 : Nat) : Int)) (ofInt roundF32 ((212 : Nat) : Int))).2
        = 4523957 / 8192 := by decide!
  have hvi : toInt (fadd roundF32 (depth_to_color roundF32 RegistrationImpl.raw.depth
      RegistrationImpl.raw.color (ofInt roundF32 ((256 : Nat) : Int))
      (ofInt roundF32 ((212 : Nat) : Int))).2 (1 / 2)) = 552 := by decide!
  refine ⟨_, _, apply_spec roundF32 _ 256 212 1000 (by omega) (by omega), ?_, ?_, ?_⟩
  · rw [ec, hy, hv]
  · rw [ec, hyi, hvi]
  · rw [ec, hy, hv, hyi, hvi]; decide!

/-- C7, amended: for every object, every `dx` in `[0,512)`, `dy` in `[0,424)`
and every `dz`, the query returns
`cx = depth_to_color_map_x[dx+dy*512] * color.fx + color.cx` (float
operations) and `cy = depth_to_color_map_y[dx+dy*512]`, the float row
coordinate that was not rounded. -/
theorem C7_point_query (rnd : ℚ → ℚ) (self : RegistrationImpl) (dx dy : Nat) (dz : ℚ)
    (hx : dx < 512) (hy : dy < 424) :
    self.apply rnd (dx : Int) (dy : Int) dz =
      some (fadd rnd (fmul rnd (self.depth_to_color_map_x (dx + dy * 512)) self.color.fx)
              self.color.cx,
            self.depth_to_color_map_y (dx + dy * 512)) :=
  apply_spec rnd self dx dy dz hx hy

/-- C7, witness: the default camera's object queried at `(256, 212)` with
`dz = 1000`. -/
theorem C7_point_query_witness :
    ((256 : Nat) < 512 ∧ (212 : Nat) < 424) ∧
    (RegistrationImpl.new roundF32 RegistrationImpl.raw).apply roundF32
        ((256 : Nat) : Int) ((212 : Nat) : Int) 1000 =
      some (fadd roundF32 (fmul roundF32
              ((RegistrationImpl.new roundF32 RegistrationImpl.raw).depth_to_color_map_x
                (256 + 212 * 512))
              (RegistrationImpl.new roundF32 RegistrationImpl.raw).color.fx)
              (RegistrationImpl.new roundF32 RegistrationImpl.raw).color.cx,
            (RegistrationImpl.new roundF32 RegistrationImpl.raw).depth_to_color_map_y
              (256 + 212 * 512)) :=
  ⟨⟨by decide, by decide⟩,
    C7_point_query roundF32 (RegistrationImpl.new roundF32 RegistrationImpl.raw) 256 212 1000
      (by decide) (by decide)⟩

/-- C8: the single-point query ignores the depth value: for every object,
every `dx` in `[0,512)`, `dy` in `[0,424)` and every two depth values `dz1`,
`dz2`, both calls return, and they return the same `(cx, cy)`. -/
theorem C8_query_ignores_depth (rnd : ℚ → ℚ) (self : RegistrationImpl) (dx dy : Nat)
    (dz1 dz2 : ℚ) (hx : dx < 512) (hy : dy < 424) :
    ∃ p, self.apply rnd (dx : Int) (dy : Int) dz1 = some p ∧
      self.apply rnd (dx : Int) (dy : Int) dz2 = some p :=
  ⟨_, apply_spec rnd self dx dy dz1 hx hy, apply_spec rnd self dx dy dz2 hx hy⟩

/-- C8, witness: the default camera's object queried at `(256, 212)` with the
depths 500 and 4000. -/
theorem C8_query_ignores_depth_witness :
    ((256 : Nat) < 512 ∧ (212 : Nat) < 424) ∧
    ∃ p, (RegistrationImpl.new roundF32 RegistrationImpl.raw).apply roundF32
          ((256 : Nat) : Int) ((212 : Nat) : Int) 500 = some p ∧
      (RegistrationImpl.new roundF32 RegistrationImpl.raw).apply roundF32
          ((256 : Nat) : Int) ((212 : Nat) : Int) 4000 = some p :=
  ⟨⟨by decide, by decide⟩,
    C8_query_ignores_depth roundF32 (RegistrationImpl.new roundF32 RegistrationImpl.raw)
      256 212 500 4000 (by decide) (by decide)⟩

/-! ## The centre pixel under the default parameters (C9) -/

/-- C9, refuted as stated: with the default parameters `depth_to_color(256, 212)`
gives the colour position `(rx * color.fx + color.cx, ry)` whose row `ry` is
more than 5 pixels away from 540, both in binary32 and in exact arithmetic. -/
theorem C9_centre_row_is_not_within_5 :
    ¬ (|fadd roundF32 (fmul roundF32
            (depth_to_color roundF32 IrCameraParams.default ColorCameraParams.default
              (ofInt roundF32 256) (ofInt roundF32 212)).1
            ColorCameraParams.default.fx) ColorCameraParams.default.cx - 957425 / 1000| ≤ 5 ∧
        |(depth_to_color roundF32 IrCameraParams.default ColorCameraParams.default
              (ofInt roundF32 256) (ofInt roundF32 212)).2 - 540| ≤ 5) ∧
    ¬ (|fadd id (fmul id
            (depth_to_color id IrCameraParams.default ColorCameraParams.default
              (ofInt id 256) (ofInt id 212)).1
            ColorCameraParams.default.fx) ColorCameraParams.default.cx - 957425 / 1000| ≤ 5 ∧
        |(depth_to_color id IrCameraParams.default ColorCameraParams.default
              (ofInt id 256) (ofInt id 212)).2 - 540| ≤ 5) := by
  constructor <;> decide!

/-- C9, amended: with the default parameters `depth_to_color(256, 212)` gives
a colour position whose column `rx * color.fx + color.cx` is within 1 pixel
(hence within 5) of `957.425`, and whose row `ry` lies between 12 and 13
pixels above 540 (`ry` is about `552.24`); in binary32 and in exact
arithmetic alike. -/
theorem C9_centre_pixel_position :
    (|fadd roundF32 (fmul roundF32
            (depth_to_color roundF32 IrCameraParams.default ColorCameraParams.default
              (ofInt roundF32 256) (ofInt roundF32 212)).1
            ColorCameraParams.default.fx) ColorCameraParams.default.cx - 957425 / 1000| ≤ 1 ∧
      12 < (depth_to_color roundF32 IrCameraParams.default ColorCameraParams.default
              (ofInt roundF32 256) (ofInt roundF32 212)).2 - 540 ∧
      (depth_to_color roundF32 IrCameraParams.default ColorCameraParams.default
              (ofInt roundF32 256) (ofInt roundF32 212)).2 - 540 < 13) ∧
    (|fadd id (fmul id
            (depth_to_color id IrCameraParams.default ColorCameraParams.default
              (ofInt id 256) (ofInt id 212)).1
            ColorCameraParams.default.fx) ColorCameraParams.default.cx - 957425 / 1000| ≤ 1 ∧
      12 < (depth_to_color id IrCameraParams.default ColorCameraParams.default
              (ofInt id 256) (ofInt id 212)).2 - 540 ∧
      (depth_to_color id IrCameraParams.default ColorCameraParams.default
              (ofInt id 256) (ofInt id 212)).2 - 540 < 13) := by
  constructor <;> decide!

/-! ## Cameras without distortion (C10) -/

theorem toInt_natCast_add_half (n : Nat) : toInt ((n : ℚ) + 1 / 2) = (n : Int) := by
  unfold toInt
  have h0 : (0 : ℚ) ≤ (n : ℚ) + 1 / 2 := by positivity
  rw [if_pos h0, Int.floor_eq_iff]
  constructor
  · push_cast; linarith
  · push_cast; linarith

theorem distort_exact_of_no_distortion (depth : IrCameraParams) (mx my : Int)
    (hk1 : depth.k1 = 0) (hk2 : depth.k2 = 0) (hk3 : depth.k3 = 0)
    (hp1 : depth.p1 = 0) (hp2 : depth.p2 = 0) (hfx : depth.fx ≠ 0) (hfy : depth.fy ≠ 0) :
    distort id depth mx my = ((mx : ℚ), (my : ℚ)) := by
  unfold distort
  simp only [fadd, fsub, fmul, fdiv, ofInt, id, hk1, hk2, hk3, hp1, hp2]
  refine Prod.ext ?_ ?_
  · show depth.fx * _ + depth.cx = (mx : ℚ)
    field_simp
  · show depth.fy * _ + depth.cy = (my : ℚ)
    field_simp

/-- C10, refuted as stated: in binary32 arithmetic the identity is not exact.
For the default intrinsics with all distortion coefficients zero,
`distort(5, 7)` has `y = 458751/65536` (about `6.99998`); and for the camera
`farCentre` (no distortion, unit focal lengths, principal point `(2^26, 0)`)
the constructor stores `0`, not `1`, in `distort_map[0*512+1]`. -/
theorem C10_identity_is_not_exact_in_binary32 :
    (IrCameraParams.noDistortion.k1 = 0 ∧ IrCameraParams.noDistortion.k2 = 0 ∧
      IrCameraParams.noDistortion.k3 = 0 ∧ IrCameraParams.noDistortion.p1 = 0 ∧
      IrCameraParams.noDistortion.p2 = 0 ∧ IrCameraParams.noDistortion.fx ≠ 0 ∧
      IrCameraParams.noDistortion.fy ≠ 0) ∧
    distort roundF32 IrCameraParams.noDistortion 5 7 = (5, 458751 / 65536) ∧
    distort roundF32 IrCameraParams.noDistortion 5 7 ≠ (5, 7) ∧
    (RegistrationImpl.new roundF32
        { RegistrationImpl.raw with depth := IrCameraParams.farCentre }).distort_map
      (0 * 512 + 1) = 0 := by
  refine ⟨by decide!, by decide!, by decide!, ?_⟩
  rw [new_distort_map roundF32 _ 1 0 (by omega) (by omega)]
  decide!

/-- C10, amended: in exact arithmetic (no rounding of the float operations),
for every camera with `k1 = k2 = k3 = p1 = p2 = 0` and non-zero focal lengths
and every grid point `0 <= x < 512`, `0 <= y < 424`, `distort(x, y) = (x, y)`
and the constructor stores `distort_map[y*512+x] = y*512+x`. -/
theorem C10_identity_without_distortion (raw : RegistrationImpl) (x y : Nat)
    (hk1 : raw.depth.k1 = 0) (hk2 : raw.depth.k2 = 0) (hk3 : raw.depth.k3 = 0)
    (hp1 : raw.depth.p1 = 0) (hp2 : raw.depth.p2 = 0)
    (hfx : raw.depth.fx ≠ 0) (hfy : raw.depth.fy ≠ 0) (hx : x < 512) (hy : y < 424) :
    distort id raw.depth (x : Int) (y : Int) = ((x : ℚ), (y : ℚ)) ∧
    (RegistrationImpl.new id raw).distort_map (y * 512 + x) = ((y * 512 + x : Nat) : Int) := by
  have hd := distort_exact_of_no_distortion raw.depth (x : Int) (y : Int)
    hk1 hk2 hk3 hp1 hp2 hfx hfy
  simp only [Int.cast_natCast] at hd
  refine ⟨by simpa using hd, ?_⟩
  rw [new_distort_map id raw x y hx hy]
  unfold distort_index
  simp only [hd, fadd, id, toInt_natCast_add_half]
  have h : ¬ ((x : Int) < 0 ∨ (x : Int) ≥ 512 ∨ (y : Int) < 0 ∨ (y : Int) ≥ 424) := by omega
  rw [if_neg h]
  push_cast
  ring

/-- C10, witness: the default intrinsics with zero distortion coefficients,
grid point `(5, 7)`. -/
theorem C10_identity_without_distortion_witness :
    (IrCameraParams.noDistortion.k1 = 0 ∧ IrCameraParams.noDistortion.k2 = 0 ∧
      IrCameraParams.noDistortion.k3 = 0 ∧ IrCameraParams.noDistortion.p1 = 0 ∧
      IrCameraParams.noDistortion.p2 = 0 ∧ IrCameraParams.noDistortion.fx ≠ 0 ∧
      IrCameraParams.noDistortion.fy ≠ 0 ∧ 5 < 512 ∧ 7 < 424) ∧
    distort id IrCameraParams.noDistortion ((5 : Nat) : Int) ((7 : Nat) : Int)
      = (((5 : Nat) : ℚ), ((7 : Nat) : ℚ)) ∧
    (RegistrationImpl.new id
        { RegistrationImpl.raw with depth := IrCameraParams.noDistortion }).distort_map
      (7 * 512 + 5) = ((7 * 512 + 5 : Nat) : Int) :=
  ⟨⟨rfl, rfl, rfl, rfl, rfl, by decide!, by decide!, by decide, by decide⟩,
    C10_identity_without_distortion
      { RegistrationImpl.raw with depth := IrCameraParams.noDistortion } 5 7
      rfl rfl rfl rfl rfl (by decide!) (by decide!) (by decide) (by decide)⟩

/-! ## The rounded row table (C12) -/

/-- C12, the code at the failing input: for the default camera and the pixel
`(256, 0)`, `depth_to_color` gives `ry = -70147/1024` (about `-68.503`), whose
nearest integer is `-69`; the constructor stores
`depth_to_color_map_yi[0*512+256] = -68`, because `(int)(ry + 0.5f)` truncates
`-68.003` toward zero. -/
theorem C12_negative_row_is_rounded_up :
    (depth_to_color roundF32 IrCameraParams.default ColorCameraParams.default
      (ofInt roundF32 256) (ofInt roundF32 0)).2 = -70147 / 1024 ∧
    round (depth_to_color roundF32 IrCameraParams.default ColorCameraParams.default
      (ofInt roundF32 256) (ofInt roundF32 0)).2 = -69 ∧
    (RegistrationImpl.new roundF32 RegistrationImpl.raw).depth_to_color_map_yi (0 * 512 + 256)
      = -68 := by
  refine ⟨by decide!, by decide!, ?_⟩
  rw [new_map_yi roundF32 RegistrationImpl.raw 256 0 (by omega) (by omega)]
  decide!

/-! ## Horner form against the expanded polynomial (C13) -/

/-- C13, refuted as stated: in binary32 the code's nested evaluation of `kr`
does not give the value of the expanded formula.  For the default camera and
the input `(0, 0)` `distort` returns `x = 536767/32768` whereas the formula of
the specification evaluates to `x = 8387/512`. -/
theorem C13_horner_differs_in_binary32 :
    (distort roundF32 IrCameraParams.default 0 0).1 = 536767 / 32768 ∧
    (distort_spec roundF32 IrCameraParams.default 0 0).1 = 8387 / 512 ∧
    distort roundF32 IrCameraParams.default 0 0 ≠
      distort_spec roundF32 IrCameraParams.default 0 0 := by
  refine ⟨by decide!, by decide!, by decide!⟩

/-- C13, amended: in exact arithmetic (no rounding of the float operations),
for every camera and every integer input `(mx, my)`, `distort` returns the
pair given by the formula of the specification with the expanded polynomial
`kr = 1 + k1*r2 + k2*r2^2 + k3*r2^3`. -/
theorem C13_horner_equals_expanded (depth : IrCameraParams) (mx my : Int) :
    distort id depth mx my = distort_spec id depth mx my := by
  unfold distort distort_spec
  simp only [fadd, fsub, fmul, fdiv, ofInt, id]
  refine Prod.ext ?_ ?_
  · show _ = _
    ring
  · show _ = _
    ring

/-! ## The point query outside of the grid (C14) and on the grid (C15) -/

theorem apply_index_spec (rnd : ℚ → ℚ) (self : RegistrationImpl) (dx dy : Int) (dz : ℚ) :
    self.apply rnd dx dy dz =
      if 0 ≤ dx + dy * 512 ∧ dx + dy * 512 < 512 * 424 then
        some (fadd rnd (fmul rnd (self.depth_to_color_map_x (dx + dy * 512).toNat)
                self.color.fx) self.color.cx,
              self.depth_to_color_map_y (dx + dy * 512).toNat)
      else none := by
  unfold RegistrationImpl.apply
  simp only [readAt, size_depth]
  push_cast
  by_cases h : 0 ≤ dx + dy * 512 ∧ dx + dy * 512 < 217088
  · simp only [if_pos h, Option.some_bind]
  · simp only [if_neg h, Option.none_bind]

/-- C14, refuted as stated: on the object of the default camera the query
`apply(600, 0, 1000)`, whose `dx` is outside of `[0,512)`, does not fail: it
returns a colour coordinate, the one that `apply(88, 1, 1000)` returns. -/
theorem C14_out_of_grid_query_returns :
    ∃ p, (RegistrationImpl.new roundF32 RegistrationImpl.raw).apply roundF32 600 0 1000
        = some p ∧
      (RegistrationImpl.new roundF32 RegistrationImpl.raw).apply roundF32 88 1 1000
        = some p := by
  have h1 := apply_index_spec roundF32 (RegistrationImpl.new roundF32 RegistrationImpl.raw)
    600 0 1000
  have h2 := apply_index_spec roundF32 (RegistrationImpl.new roundF32 RegistrationImpl.raw)
    88 1 1000
  have e1 : ((600 : Int) + 0 * 512).toNat = 600 := by decide
  have e2 : ((88 : Int) + 1 * 512).toNat = 600 := by decide
  rw [if_pos (by decide), e1] at h1
  rw [if_pos (by decide), e2] at h2
  exact ⟨_, h1, h2⟩

/-- C14, amended: the query makes no range check and has no failure result.
For every `dx`, `dy` (in the grid or not) with `0 <= dx + dy*512 < 512*424` it
returns the colour coordinate read from the tables at index `dx + dy*512`, and
for every other `dx`, `dy` it reads outside of the tables (undefined behaviour
in C++, `none` in the model). -/
theorem C14_query_has_no_range_check (rnd : ℚ → ℚ) (self : RegistrationImpl) (dx dy : Int)
    (dz : ℚ) :
    self.apply rnd dx dy dz =
      if 0 ≤ dx + dy * 512 ∧ dx + dy * 512 < 512 * 424 then
        some (fadd rnd (fmul rnd (self.depth_to_color_map_x (dx + dy * 512).toNat)
                self.color.fx) self.color.cx,
              self.depth_to_color_map_y (dx + dy * 512).toNat)
      else none :=
  apply_index_spec rnd self dx dy dz

/-- C15: for every camera, every `dx` in `[0,512)`, `dy` in `[0,424)` and every
`dz`, the query on a freshly constructed object returns
`cx = rx * color.fx + color.cx` and `cy = ry`, where
`(rx, ry) = depth_to_color(dx, dy)`: the row-major fill order of the
constructor agrees with the index `dx + dy*512` of the query. -/
theorem C15_query_is_depth_to_color (rnd : ℚ → ℚ) (raw : RegistrationImpl) (dx dy : Nat)
    (dz : ℚ) (hx : dx < 512) (hy : dy < 424) :
    (RegistrationImpl.new rnd raw).apply rnd (dx : Int) (dy : Int) dz =
      some (fadd rnd (fmul rnd
              (depth_to_color rnd raw.depth raw.color (ofInt rnd (dx : Int))
                (ofInt rnd (dy : Int))).1 raw.color.fx) raw.color.cx,
            (depth_to_color rnd raw.depth raw.color (ofInt rnd (dx : Int))
                (ofInt rnd (dy : Int))).2) := by
  have e : dx + dy * 512 = dy * 512 + dx := Nat.add_comm _ _
  rw [apply_spec rnd _ dx dy dz hx hy, e, new_map_x rnd raw dx dy hx hy,
    new_map_y rnd raw dx dy hx hy, new_color]

/-- C15, witness: the default camera, the query at `(256, 212)` with
`dz = 1000`. -/
theorem C15_query_is_depth_to_color_witness :
    ((256 : Nat) < 512 ∧ (212 : Nat) < 424) ∧
    (RegistrationImpl.new roundF32 RegistrationImpl.raw).apply roundF32
        ((256 : Nat) : Int) ((212 : Nat) : Int) 1000 =
      some (fadd roundF32 (fmul roundF32
              (depth_to_color roundF32 RegistrationImpl.raw.depth RegistrationImpl.raw.color
                (ofInt roundF32 ((256 : Nat) : Int)) (ofInt roundF32 ((212 : Nat) : Int))).1
              RegistrationImpl.raw.color.fx) RegistrationImpl.raw.color.cx,
            (depth_to_color roundF32 RegistrationImpl.raw.depth RegistrationImpl.raw.color
                (ofInt roundF32 ((256 : Nat) : Int)) (ofInt roundF32 ((212 : Nat) : Int))).2) :=
  ⟨⟨by decide, by decide⟩,
    C15_query_is_depth_to_color roundF32 RegistrationImpl.raw 256 212 1000
      (by decide) (by decide)⟩

/-! ## The two masks (C16) and the colour column (C17) -/

theorem map_c_off_rgb_nonneg_iff (rnd : ℚ → ℚ) (self : RegistrationImpl) (i : Nat) :
    ¬ self.map_c_off_rgb rnd i < 0 ↔
      (0 ≤ self.distort_map i ∧ 0 ≤ self.c_off rnd i ∧ self.c_off rnd i < 1920 * 1080) := by
  unfold RegistrationImpl.map_c_off_rgb
  simp only [size_color]
  push_cast
  generalize self.c_off rnd i = c
  generalize self.distort_map i = m
  split_ifs with h1 h2 <;> constructor <;> intro h <;> omega

theorem map_c_off_rgb_of_valid (rnd : ℚ → ℚ) (self : RegistrationImpl) (i : Nat)
    (h : 0 ≤ self.distort_map i ∧ 0 ≤ self.c_off rnd i ∧ self.c_off rnd i < 1920 * 1080) :
    self.map_c_off_rgb rnd i = self.c_off rnd i := by
  unfold RegistrationImpl.map_c_off_rgb
  simp only [size_color]
  push_cast
  have h1 : ¬ self.distort_map i < 0 := by omega
  have h2 : ¬ (self.c_off rnd i < 0 ∨ self.c_off rnd i ≥ 2073600) := by omega
  rw [if_neg h1, if_neg h2]

/-- C16: for every camera, colour frame, depth frame and band index `i`, both
frame overloads return, and if the depth overload produces a non-zero value
for `i` then the colour offset of `i` is valid (`distort_map[i] >= 0` and
`0 <= c_off < 1920*1080`) and the colour overload copies `rgb[c_off]` for `i`;
conversely, where the offset is not valid the colour overload produces the
zero pixel and the depth overload produces 0.  (Both values are stored at
output entry `i - 26*512`.) -/
theorem C16_depth_mask_refines_colour_mask (rnd : ℚ → ℚ) (raw : RegistrationImpl)
    (rgb depth out_rgb out_depth : Nat → Nat) (i : Nat)
    (hlo : 26 * 512 ≤ i) (hhi : i < 389 * 512) :
    ∃ oc od, (RegistrationImpl.new rnd raw).apply_rgb rnd rgb out_rgb = some oc ∧
      (RegistrationImpl.new rnd raw).apply_depth rnd depth out_depth = some od ∧
      (od (i - 26 * 512) ≠ 0 →
        (0 ≤ (RegistrationImpl.new rnd raw).distort_map i ∧
          0 ≤ (RegistrationImpl.new rnd raw).c_off rnd i ∧
          (RegistrationImpl.new rnd raw).c_off rnd i < 1920 * 1080) ∧
        oc (i - 26 * 512) = rgb ((RegistrationImpl.new rnd raw).c_off rnd i).toNat) ∧
      (¬ (0 ≤ (RegistrationImpl.new rnd raw).distort_map i ∧
          0 ≤ (RegistrationImpl.new rnd raw).c_off rnd i ∧
          (RegistrationImpl.new rnd raw).c_off rnd i < 1920 * 1080) →
        oc (i - 26 * 512) = 0 ∧ od (i - 26 * 512) = 0) := by
  obtain ⟨oc, hoc, hc⟩ := apply_rgb_spec rnd (RegistrationImpl.new rnd raw) rgb out_rgb
  obtain ⟨od, hod, hd⟩ := apply_depth_spec rnd (RegistrationImpl.new rnd raw) depth out_depth
    (new_distort_map_range rnd raw)
  have e : i - 26 * 512 + 26 * 512 = i := by omega
  have hcv := hc (i - 26 * 512)
  have hdv := hd (i - 26 * 512)
  rw [if_pos (by omega), e] at hcv hdv
  refine ⟨oc, od, hoc, hod, ?_, ?_⟩
  · intro hne
    have hnn : ¬ (RegistrationImpl.new rnd raw).depthOffset rnd depth i < 0 := by
      intro hneg
      apply hne
      rw [hdv]
      unfold RegistrationImpl.depthValue
      rw [if_pos hneg]
    have hv := (depthOffset_nonneg_iff rnd _ depth i).mp hnn
    have hvalid : 0 ≤ (RegistrationImpl.new rnd raw).distort_map i ∧
        0 ≤ (RegistrationImpl.new rnd raw).c_off rnd i ∧
        (RegistrationImpl.new rnd raw).c_off rnd i < 1920 * 1080 := ⟨hv.1, hv.2.2.1, hv.2.2.2⟩
    refine ⟨hvalid, ?_⟩
    rw [hcv]
    unfold RegistrationImpl.rgbValue
    rw [if_neg ((map_c_off_rgb_nonneg_iff rnd _ i).mpr hvalid),
      map_c_off_rgb_of_valid rnd _ i hvalid]
  · intro hinv
    constructor
    · rw [hcv]
      unfold RegistrationImpl.rgbValue
      rw [if_pos (not_not.mp (fun h => hinv ((map_c_off_rgb_nonneg_iff rnd _ i).mp h)))]
    · rw [hdv]
      unfold RegistrationImpl.depthValue
      have : (RegistrationImpl.new rnd raw).depthOffset rnd depth i < 0 := by
        by_contra hnn
        have hv := (depthOffset_nonneg_iff rnd _ depth i).mp hnn
        exact hinv ⟨hv.1, hv.2.2.1, hv.2.2.2⟩
      rw [if_pos this]

/-- C16, witness: the default camera, band index `13312` (pixel `(0, 26)`), the
colour frame `rgb[k] = k + 1` and the depth frame `depth[k] = k + 1`. -/
theorem C16_depth_mask_refines_colour_mask_witness :
    (26 * 512 ≤ 13312 ∧ 13312 < 389 * 512) ∧
    ∃ oc od, (RegistrationImpl.new roundF32 RegistrationImpl.raw).apply_rgb roundF32
          (fun k => k + 1) (fun _ => 7) = some oc ∧
      (RegistrationImpl.new roundF32 RegistrationImpl.raw).apply_depth roundF32
          (fun k => k + 1) (fun _ => 7) = some od ∧
      (od (13312 - 26 * 512) ≠ 0 →
        (0 ≤ (RegistrationImpl.new roundF32 RegistrationImpl.raw).distort_map 13312 ∧
          0 ≤ (RegistrationImpl.new roundF32 RegistrationImpl.raw).c_off roundF32 13312 ∧
          (RegistrationImpl.new roundF32 RegistrationImpl.raw).c_off roundF32 13312
            < 1920 * 1080) ∧
        oc (13312 - 26 * 512) = (fun k => k + 1)
          ((RegistrationImpl.new roundF32 RegistrationImpl.raw).c_off roundF32 13312).toNat) ∧
      (¬ (0 ≤ (RegistrationImpl.new roundF32 RegistrationImpl.raw).distort_map 13312 ∧
          0 ≤ (RegistrationImpl.new roundF32 RegistrationImpl.raw).c_off roundF32 13312 ∧
          (RegistrationImpl.new roundF32 RegistrationImpl.raw).c_off roundF32 13312
            < 1920 * 1080) →
        oc (13312 - 26 * 512) = 0 ∧ od (13312 - 26 * 512) = 0) :=
  ⟨⟨by decide, by decide⟩,
    C16_depth_mask_refines_colour_mask roundF32 RegistrationImpl.raw
      (fun k => k + 1) (fun k => k + 1) (fun _ => 7) (fun _ => 7) 13312 (by decide) (by decide)⟩

theorem shifted_tables_108800 :
    (RegistrationImpl.new roundF32
        { RegistrationImpl.raw with color := ColorCameraParams.shifted }).distort_map 108800
      = 108800 ∧
    toInt (fadd roundF32 (fmul roundF32
        ((RegistrationImpl.new roundF32
          { RegistrationImpl.raw with color := ColorCameraParams.shifted }).depth_to_color_map_x
          108800)
        (RegistrationImpl.new roundF32
          { RegistrationImpl.raw with color := ColorCameraParams.shifted }).color.fx)
        (fadd roundF32 (RegistrationImpl.new roundF32
          { RegistrationImpl.raw with color := ColorCameraParams.shifted }).color.cx (1 / 2)))
      = 1999 ∧
    (RegistrationImpl.new roundF32
        { RegistrationImpl.raw with color := ColorCameraParams.shifted }).depth_to_color_map_yi
      108800 = 552 := by
  have e : (108800 : Nat) = 212 * 512 + 256 := by norm_num
  rw [e, new_distort_map roundF32 _ 256 212 (by omega) (by omega),
    new_map_x roundF32 _ 256 212 (by omega) (by omega),
    new_map_yi roundF32 _ 256 212 (by omega) (by omega), new_color]
  refine ⟨by decide!, by decide!, by decide!⟩

/-- C17: a valid colour offset with a colour column outside of `[0,1920)`.
For the default camera with the colour principal point column moved to 2000
and the band index `108800` (pixel `(256, 212)`), the computed column is
`cx = 1999` and the row `cy = 552`; the offset `1999 + 552*1920 = 1061839` is
accepted, and with the colour frame `rgb[k] = k` the colour overload stores
`rgb[1061839]`, which is the pixel at row 553, column 79 of the colour frame,
instead of a zero pixel. -/
theorem C17_column_outside_frame_is_accepted :
    1920 ≤ toInt (fadd roundF32 (fmul roundF32
        ((RegistrationImpl.new roundF32
          { RegistrationImpl.raw with color := ColorCameraParams.shifted }).depth_to_color_map_x
          108800)
        (RegistrationImpl.new roundF32
          { RegistrationImpl.raw with color := ColorCameraParams.shifted }).color.fx)
        (fadd roundF32 (RegistrationImpl.new roundF32
          { RegistrationImpl.raw with color := ColorCameraParams.shifted }).color.cx (1 / 2))) ∧
    (RegistrationImpl.new roundF32
        { RegistrationImpl.raw with color := ColorCameraParams.shifted }).map_c_off_rgb roundF32
      108800 = 1999 + 552 * 1920 ∧
    (1999 + 552 * 1920 : Int) = 79 + 553 * 1920 ∧
    ∃ o, (RegistrationImpl.new roundF32
          { RegistrationImpl.raw with color := ColorCameraParams.shifted }).apply_rgb roundF32
          (fun k => k) (fun _ => 0) = some o ∧
      o (108800 - 26 * 512) = 1061839 := by
  obtain ⟨hd, hx, hy⟩ := shifted_tables_108800
  have hc : (RegistrationImpl.new roundF32
      { RegistrationImpl.raw with color := ColorCameraParams.shifted }).c_off roundF32 108800
        = 1999 + 552 * 1920 := by
    show _ + _ * 1920 = _
    rw [hx, hy]
  have hm : (RegistrationImpl.new roundF32
      { RegistrationImpl.raw with color := ColorCameraParams.shifted }).map_c_off_rgb roundF32
        108800 = 1999 + 552 * 1920 := by
    rw [map_c_off_rgb_of_valid roundF32 _ 108800 (by rw [hd, hc]; decide), hc]
  refine ⟨by rw [hx]; decide, hm, by decide, ?_⟩
  obtain ⟨o, ho, hj⟩ := apply_rgb_spec roundF32 (RegistrationImpl.new roundF32
      { RegistrationImpl.raw with color := ColorCameraParams.shifted }) (fun k => k) (fun _ => 0)
  refine ⟨o, ho, ?_⟩
  rw [hj (108800 - 26 * 512), if_pos (by decide)]
  have e : 108800 - 26 * 512 + 26 * 512 = 108800 := by decide
  rw [e]
  unfold RegistrationImpl.rgbValue
  rw [hm]
  decide

/-! ## Properties of the binary rounding -/

theorem roundF32_eq (q : ℚ) : roundF32 q = roundBinary 23 (-149) q := rfl

theorem log2Fuel_spec : ∀ (f n : Nat), 1 ≤ n → n ≤ f →
    2 ^ log2Fuel f n ≤ n ∧ n < 2 ^ (log2Fuel f n + 1) := by
  intro f
  induction f with
  | zero => intro n h1 h2; omega
  | succ f ih =>
    intro n h1 h2
    unfold log2Fuel
    by_cases h : n < 2
    · rw [if_pos h]; simp; omega
    · rw [if_neg h]
      obtain ⟨ha, hb⟩ := ih (n / 2) (by omega) (by omega)
      have e1 : 2 ^ (log2Fuel f (n / 2) + 1) = 2 * 2 ^ log2Fuel f (n / 2) := by ring
      have e2 : 2 ^ (log2Fuel f (n / 2) + 1 + 1) = 4 * 2 ^ log2Fuel f (n / 2) := by ring
      rw [e1] at hb
      rw [e1, e2]
      constructor <;> omega

theorem ilog2_spec (q : ℚ) (hq : q ≠ 0) :
    (2 : ℚ) ^ ilog2 q ≤ |q| ∧ |q| < (2 : ℚ) ^ (ilog2 q + 1) := by
  have hn : 1 ≤ q.num.natAbs := by
    have : q.num ≠ 0 := Rat.num_ne_zero.mpr hq
    omega
  have hd : 1 ≤ q.den := q.den_pos
  obtain ⟨ha1, ha2⟩ := log2Fuel_spec q.num.natAbs q.num.natAbs hn (le_refl _)
  obtain ⟨hb1, hb2⟩ := log2Fuel_spec q.den q.den hd (le_refl _)
  have habs : |q| = (q.num.natAbs : ℚ) / (q.den : ℚ) := by
    conv_lhs => rw [← Rat.num_div_den q]
    rw [abs_div, Nat.abs_cast]
    congr 1
    rw [← Int.cast_abs, ← Nat.cast_natAbs]
  set a := log2Fuel q.num.natAbs q.num.natAbs with ha
  set b := log2Fuel q.den q.den with hb
  have ha1' : (2 : ℚ) ^ a ≤ (q.num.natAbs : ℚ) := by exact_mod_cast ha1
  have ha2' : (q.num.natAbs : ℚ) < (2 : ℚ) ^ (a + 1) := by exact_mod_cast ha2
  have hb1' : (2 : ℚ) ^ b ≤ (q.den : ℚ) := by exact_mod_cast hb1
  have hb2' : (q.den : ℚ) < (2 : ℚ) ^ (b + 1) := by exact_mod_cast hb2
  have hdpos : (0 : ℚ) < (q.den : ℚ) := by exact_mod_cast q.den_pos
  have h2b : (0 : ℚ) < (2 : ℚ) ^ b := by positivity
  have h2b1 : (0 : ℚ) < (2 : ℚ) ^ (b + 1) := by positivity
  have hk : ∀ j : Int, (2 : ℚ) ^ (((a : Int) - (b : Int)) + j) = (2 : ℚ) ^ a * (2 : ℚ) ^ j / (2 : ℚ) ^ b := by
    intro j
    rw [zpow_add₀ (by norm_num), zpow_sub₀ (by norm_num), zpow_natCast, zpow_natCast]
    ring
  unfold ilog2
  simp only
  rw [← ha, ← hb]
  by_cases hc : (2 : ℚ) ^ ((a : Int) - (b : Int)) ≤ |q|
  · rw [if_pos hc]
    refine ⟨hc, ?_⟩
    rw [hk 1, habs, div_lt_div_iff₀ hdpos h2b]
    have : (2 : ℚ) ^ a * (2 : ℚ) ^ (1 : Int) = (2 : ℚ) ^ (a + 1) := by
      rw [zpow_one]; ring
    rw [this]
    calc (q.num.natAbs : ℚ) * (2 : ℚ) ^ b ≤ (q.num.natAbs : ℚ) * (q.den : ℚ) := by
          apply mul_le_mul_of_nonneg_left hb1'; positivity
      _ < (2 : ℚ) ^ (a + 1) * (q.den : ℚ) := by
          apply mul_lt_mul_of_pos_right ha2' hdpos
  · rw [if_neg hc]
    constructor
    · have e : (a : Int) - (b : Int) - 1 = (a : Int) - (b : Int) + (-1) := by ring
      rw [e, hk (-1), habs, div_le_div_iff₀ h2b hdpos]
      have : (2 : ℚ) ^ a * (2 : ℚ) ^ (-1 : Int) * (q.den : ℚ) ≤ (2 : ℚ) ^ a * (2 : ℚ) ^ b := by
        have h1 : (2 : ℚ) ^ (-1 : Int) * (q.den : ℚ) ≤ (2 : ℚ) ^ b := by
          have : (2 : ℚ) ^ (-1 : Int) = 1 / 2 := by norm_num
          rw [this]
          have e2 : (2 : ℚ) ^ (b + 1) = 2 * (2 : ℚ) ^ b := by ring
          rw [e2] at hb2'
          linarith
        calc (2 : ℚ) ^ a * (2 : ℚ) ^ (-1 : Int) * (q.den : ℚ)
            = (2 : ℚ) ^ a * ((2 : ℚ) ^ (-1 : Int) * (q.den : ℚ)) := by ring
          _ ≤ (2 : ℚ) ^ a * (2 : ℚ) ^ b := by
            apply mul_le_mul_of_nonneg_left h1; positivity
      calc (2 : ℚ) ^ a * (2 : ℚ) ^ (-1 : Int) * (q.den : ℚ) ≤ (2 : ℚ) ^ a * (2 : ℚ) ^ b := this
        _ ≤ (q.num.natAbs : ℚ) * (2 : ℚ) ^ b := by
            apply mul_le_mul_of_nonneg_right ha1'; positivity
    · have e : (a : Int) - (b : Int) - 1 + 1 = (a : Int) - (b : Int) := by ring
      rw [e]
      exact not_le.mp hc

theorem roundHalfEven_intCast (z : Int) : roundHalfEven (z : ℚ) = z := by
  unfold roundHalfEven
  simp

theorem roundHalfEven_le (x : ℚ) (N : Int) (h : x ≤ (N : ℚ)) : roundHalfEven x ≤ N := by
  have hf : ⌊x⌋ ≤ N := by exact_mod_cast le_trans (Int.floor_le x) h
  have hs : 1 / 2 ≤ x - (⌊x⌋ : ℚ) → ⌊x⌋ + 1 ≤ N := by
    intro hr
    by_contra hc
    have hN : N ≤ ⌊x⌋ := by omega
    have : (N : ℚ) ≤ (⌊x⌋ : ℚ) := by exact_mod_cast hN
    linarith
  unfold roundHalfEven
  simp only
  split_ifs with h1 h2 h3
  · exact hf
  · exact hs (le_of_lt h2)
  · exact hf
  · exact hs (not_lt.mp h1)

theorem le_roundHalfEven (x : ℚ) (N : Int) (h : (N : ℚ) ≤ x) : N ≤ roundHalfEven x := by
  have hf : N ≤ ⌊x⌋ := Int.le_floor.mpr h
  unfold roundHalfEven
  simp only
  split_ifs <;> omega

theorem roundBinary_of_repr (p : Nat) (emin : Int) (m e : Int)
    (hm : |(m : ℚ)| < (2 : ℚ) ^ (p + 1)) (he : emin ≤ e) :
    roundBinary p emin ((m : ℚ) * (2 : ℚ) ^ e) = (m : ℚ) * (2 : ℚ) ^ e := by
  by_cases hm0 : m = 0
  · subst hm0; simp [roundBinary]
  have h2e : (0 : ℚ) < (2 : ℚ) ^ e := by positivity
  have hq : (m : ℚ) * (2 : ℚ) ^ e ≠ 0 := by
    apply mul_ne_zero
    · exact_mod_cast hm0
    · exact ne_of_gt h2e
  obtain ⟨h1, _⟩ := ilog2_spec _ hq
  have habs : |(m : ℚ) * (2 : ℚ) ^ e| = |(m : ℚ)| * (2 : ℚ) ^ e := by
    rw [abs_mul, abs_of_pos h2e]
  have hlt : (2 : ℚ) ^ ilog2 ((m : ℚ) * (2 : ℚ) ^ e) < (2 : ℚ) ^ (((p : Int) + 1) + e) := by
    rw [zpow_add₀ (by norm_num : (2 : ℚ) ≠ 0)]
    calc (2 : ℚ) ^ ilog2 ((m : ℚ) * (2 : ℚ) ^ e) ≤ |(m : ℚ)| * (2 : ℚ) ^ e := by rw [← habs]; exact h1
      _ < (2 : ℚ) ^ ((p : Int) + 1) * (2 : ℚ) ^ e := by
          apply mul_lt_mul_of_pos_right _ h2e
          have : (2 : ℚ) ^ ((p : Int) + 1) = (2 : ℚ) ^ (p + 1) := by
            rw [← zpow_natCast]; push_cast; rfl
          rw [this]; exact hm
  have hL : ilog2 ((m : ℚ) * (2 : ℚ) ^ e) < (p : Int) + 1 + e :=
    (zpow_lt_zpow_iff_right₀ (by norm_num : (1 : ℚ) < 2)).mp hlt
  have he' : max emin (ilog2 ((m : ℚ) * (2 : ℚ) ^ e) - (p : Int)) ≤ e := max_le he (by omega)
  unfold roundBinary
  rw [if_neg hq]
  simp only
  generalize max emin (ilog2 ((m : ℚ) * (2 : ℚ) ^ e) - (p : Int)) = e' at he'
  obtain ⟨k, hk⟩ : ∃ k : Nat, e = e' + (k : Int) := ⟨(e - e').toNat, by omega⟩
  have h2e' : (2 : ℚ) ^ e' ≠ 0 := by positivity
  have hdiv : (m : ℚ) * (2 : ℚ) ^ e / (2 : ℚ) ^ e' = ((m * 2 ^ k : Int) : ℚ) := by
    rw [hk, zpow_add₀ (by norm_num : (2 : ℚ) ≠ 0), zpow_natCast]
    push_cast
    field_simp
    ring
  rw [hdiv, roundHalfEven_intCast, hk, zpow_add₀ (by norm_num : (2 : ℚ) ≠ 0), zpow_natCast]
  push_cast
  ring

theorem roundBinary_repr (p : Nat) (emin : Int) (q : ℚ) :
    ∃ m e : Int, |(m : ℚ)| < (2 : ℚ) ^ (p + 1) ∧ emin ≤ e ∧
      roundBinary p emin q = (m : ℚ) * (2 : ℚ) ^ e := by
  by_cases hq : q = 0
  · refine ⟨0, emin, ?_, le_refl _, ?_⟩
    · simp
    · simp [roundBinary, hq]
  obtain ⟨_, h2⟩ := ilog2_spec q hq
  have hemin : emin ≤ max emin (ilog2 q - (p : Int)) := le_max_left _ _
  have hL : ilog2 q - (p : Int) ≤ max emin (ilog2 q - (p : Int)) := le_max_right _ _
  unfold roundBinary
  rw [if_neg hq]
  simp only
  generalize max emin (ilog2 q - (p : Int)) = e at hemin hL
  have h2e : (0 : ℚ) < (2 : ℚ) ^ e := by positivity
  have hpow : (2 : ℚ) ^ (ilog2 q + 1) ≤ (2 : ℚ) ^ (p + 1) * (2 : ℚ) ^ e := by
    have : (2 : ℚ) ^ (p + 1) = (2 : ℚ) ^ ((p : Int) + 1) := by
      rw [← zpow_natCast]; push_cast; rfl
    rw [this, ← zpow_add₀ (by norm_num : (2 : ℚ) ≠ 0)]
    exact zpow_le_zpow_right₀ (by norm_num) (by omega)
  have hb : |q / (2 : ℚ) ^ e| < (2 : ℚ) ^ (p + 1) := by
    rw [abs_div, abs_of_pos h2e, div_lt_iff₀ h2e]
    exact lt_of_lt_of_le h2 hpow
  have hcast : (((2 ^ (p + 1) : Nat) : Int) : ℚ) = (2 : ℚ) ^ (p + 1) := by push_cast; rfl
  have hup : roundHalfEven (q / (2 : ℚ) ^ e) ≤ ((2 ^ (p + 1) : Nat) : Int) := by
    apply roundHalfEven_le
    rw [hcast]
    exact le_of_lt (lt_of_le_of_lt (le_abs_self _) hb)
  have hlo : -((2 ^ (p + 1) : Nat) : Int) ≤ roundHalfEven (q / (2 : ℚ) ^ e) := by
    apply le_roundHalfEven
    push_cast
    have := neg_abs_le (q / (2 : ℚ) ^ e)
    have h3 : -|q / (2 : ℚ) ^ e| ≥ -(2 : ℚ) ^ (p + 1) := by linarith
    linarith
  generalize roundHalfEven (q / (2 : ℚ) ^ e) = M at hup hlo
  have hpp : (2 : ℚ) ^ (p + 1) = 2 * (2 : ℚ) ^ p := by ring
  have hpp' : (2 ^ (p + 1) : Nat) = 2 * 2 ^ p := by ring
  by_cases hU : M = ((2 ^ (p + 1) : Nat) : Int)
  · refine ⟨((2 ^ p : Nat) : Int), e + 1, ?_, by omega, ?_⟩
    · push_cast
      rw [abs_of_pos (by positivity), hpp]
      have : (0 : ℚ) < (2 : ℚ) ^ p := by positivity
      linarith
    · rw [hU, zpow_add₀ (by norm_num : (2 : ℚ) ≠ 0), zpow_one]
      push_cast
      ring
  by_cases hD : M = -((2 ^ (p + 1) : Nat) : Int)
  · refine ⟨-((2 ^ p : Nat) : Int), e + 1, ?_, by omega, ?_⟩
    · push_cast
      rw [abs_neg, abs_of_pos (by positivity), hpp]
      have : (0 : ℚ) < (2 : ℚ) ^ p := by positivity
      linarith
    · rw [hD, zpow_add₀ (by norm_num : (2 : ℚ) ≠ 0), zpow_one]
      push_cast
      ring
  · refine ⟨M, e, ?_, hemin, rfl⟩
    rw [abs_lt, ← hcast]
    constructor
    · have : -((2 ^ (p + 1) : Nat) : Int) < M := lt_of_le_of_ne hlo (Ne.symm hD)
      exact_mod_cast this
    · have : M < ((2 ^ (p + 1) : Nat) : Int) := lt_of_le_of_ne hup hU
      exact_mod_cast this

theorem roundBinary_idem (p : Nat) (emin : Int) (q : ℚ) :
    roundBinary p emin (roundBinary p emin q) = roundBinary p emin q := by
  obtain ⟨m, e, hm, he, h⟩ := roundBinary_repr p emin q
  rw [h]
  exact roundBinary_of_repr p emin m e hm he

theorem roundBinary_nonneg (p : Nat) (emin : Int) (q : ℚ) (hq : 0 ≤ q) :
    0 ≤ roundBinary p emin q := by
  unfold roundBinary
  split_ifs with h0
  · exact le_refl _
  · simp only
    apply mul_nonneg
    · have : (0 : Int) ≤ roundHalfEven (q / (2 : ℚ) ^ max emin (ilog2 q - (p : Int))) := by
        apply le_roundHalfEven
        push_cast
        exact div_nonneg hq (by positivity)
      exact_mod_cast this
    · positivity

theorem roundBinary_natCast (p : Nat) (emin : Int) (n : Nat) (hn : n < 2 ^ (p + 1))
    (he : emin ≤ 0) : roundBinary p emin (n : ℚ) = (n : ℚ) := by
  have h := roundBinary_of_repr p emin (n : Int) 0
    (by
      rw [Int.cast_natCast, Nat.abs_cast]
      exact_mod_cast hn) he
  simpa using h

theorem roundF32_idem (q : ℚ) : roundF32 (roundF32 q) = roundF32 q :=
  roundBinary_idem 23 (-149) q

theorem roundF32_zero : roundF32 0 = 0 := rfl

/-! ## The synthetic linear model (C11) -/

/-- C11: for every arithmetic whose rounding leaves 0 and every already
rounded value unchanged (binary32 and exact arithmetic are such), and every
camera whose colour model is the linear one (all twenty coefficients zero
except `mx_x1y0 = 1` and `my_x0y1 = 1`, `shift_m = 0`; `shift_d`, `color.fx`,
`color.mq` non-zero), the built tables satisfy, for every pixel
`0 <= x < 512`, `0 <= y < 424`,
`depth_to_color_map_x[y*512+x] = (x - depth.cx)*depth.mq / (color.fx*color.mq)`
and
`depth_to_color_map_y[y*512+x] = (y - depth.cy)*depth.mq / color.mq + color.cy`,
the right-hand sides evaluated in the same arithmetic, in the order written. -/
theorem C11_linear_model_tables (rnd : ℚ → ℚ) (raw : RegistrationImpl) (x y : Nat)
    (hz : rnd 0 = 0) (hid : ∀ q, rnd (rnd q) = rnd q)
    (hlin : raw.color.isLinearModel)
    (_hd : raw.color.shift_d ≠ 0) (_hfx : raw.color.fx ≠ 0) (_hmq : raw.color.mq ≠ 0)
    (hx : x < 512) (hy : y < 424) :
    (RegistrationImpl.new rnd raw).depth_to_color_map_x (y * 512 + x) =
      fdiv rnd (fmul rnd (fsub rnd (ofInt rnd (x : Int)) raw.depth.cx) raw.depth.mq)
        (fmul rnd raw.color.fx raw.color.mq) ∧
    (RegistrationImpl.new rnd raw).depth_to_color_map_y (y * 512 + x) =
      fadd rnd (fdiv rnd (fmul rnd (fsub rnd (ofInt rnd (y : Int)) raw.depth.cy) raw.depth.mq)
        raw.color.mq) raw.color.cy := by
  obtain ⟨h1, h2, h3, h4, h5, h6, h7, h8, h9, h10, h11, h12, h13, h14, h15, h16, h17, h18,
    h19, h20, h21⟩ := hlin
  rw [new_map_x rnd raw x y hx hy, new_map_y rnd raw x y hx hy]
  unfold depth_to_color
  simp only [fadd, fsub, fmul, fdiv, h1, h2, h3, h4, h5, h6, h7, h8, h9, h10, h11, h12, h13,
    h14, h15, h16, h17, h18, h19, h20, h21, mul_zero, mul_one, add_zero, zero_add, zero_div,
    sub_zero, hz, hid, and_self]

/-- C11, witness: binary32 arithmetic, the default depth camera and the linear
colour model on the default colour intrinsics, pixel `(5, 7)`. -/
theorem C11_linear_model_tables_witness :
    (roundF32 0 = 0 ∧ (∀ q, roundF32 (roundF32 q) = roundF32 q) ∧
      ColorCameraParams.linearModel.isLinearModel ∧
      ColorCameraParams.linearModel.shift_d ≠ 0 ∧ ColorCameraParams.linearModel.fx ≠ 0 ∧
      ColorCameraParams.linearModel.mq ≠ 0 ∧ 5 < 512 ∧ 7 < 424) ∧
    (RegistrationImpl.new roundF32
        { RegistrationImpl.raw with color := ColorCameraParams.linearModel }).depth_to_color_map_x
        (7 * 512 + 5) =
      fdiv roundF32 (fmul roundF32 (fsub roundF32 (ofInt roundF32 ((5 : Nat) : Int))
          IrCameraParams.default.cx) IrCameraParams.default.mq)
        (fmul roundF32 ColorCameraParams.linearModel.fx ColorCameraParams.linearModel.mq) ∧
    (RegistrationImpl.new roundF32
        { RegistrationImpl.raw with color := ColorCameraParams.linearModel }).depth_to_color_map_y
        (7 * 512 + 5) =
      fadd roundF32 (fdiv roundF32 (fmul roundF32 (fsub roundF32 (ofInt roundF32 ((7 : Nat) : Int))
          IrCameraParams.default.cy) IrCameraParams.default.mq)
        ColorCameraParams.linearModel.mq) ColorCameraParams.linearModel.cy :=
  ⟨⟨roundF32_zero, roundF32_idem, by decide!, by decide!, by decide!, by decide!,
      by decide, by decide⟩,
    C11_linear_model_tables roundF32
      { RegistrationImpl.raw with color := ColorCameraParams.linearModel } 5 7
      roundF32_zero roundF32_idem (by decide!) (by decide!) (by decide!) (by decide!)
      (by decide) (by decide)⟩

/-! ## `resize`, row by row -/

theorem readAt_natCast {α : Type} (size : Nat) (buf : Nat → α) (j : Nat) (h : j < size) :
    readAt size buf (j : Int) = some (buf j) := by
  unfold readAt
  rw [if_pos ⟨Int.ofNat_nonneg j, by exact_mod_cast h⟩, Int.toNat_ofNat]

theorem readAt_of_range {α : Type} (size : Nat) (buf : Nat → α) (i : Int)
    (h : 0 ≤ i ∧ i < (size : Int)) : readAt size buf i = some (buf i.toNat) := by
  unfold readAt
  rw [if_pos h]

theorem storeAt_of_range {α : Type} (size : Nat) (buf : Nat → α) (i : Int) (v : α)
    (h : 0 ≤ i ∧ i < (size : Int)) :
    storeAt size buf i v = some (Function.update buf i.toNat v) := by
  unfold storeAt
  rw [if_pos h]

theorem resizeTail_spec {α : Type} (src : Nat → α) (src_size : Nat) (x_ofs : Nat → Int)
    (dst_size : Nat) (S : Int) (D dw : Nat)
    (hS : ∀ j, j < dw → 0 ≤ S + x_ofs j ∧ S + x_ofs j < (src_size : Int))
    (hD : D + dw ≤ dst_size) :
    ∀ (m n : Nat) (d : Nat → α), n ≤ dw → dw - n ≤ m →
      ∃ d', resizeTail src src_size x_ofs dst_size S (D : Int) (dw : Int)
          { x := (n : Int), dst := d } = some { x := (dw : Int), dst := d' } ∧
        ∀ k, d' k = if D + n ≤ k ∧ k < D + dw then src (S + x_ofs (k - D)).toNat else d k := by
  intro m
  induction m with
  | zero =>
    intro n d hn hm
    have e : n = dw := by omega
    subst e
    refine ⟨d, ?_, ?_⟩
    · rw [resizeTail, if_neg (by simp)]
    · intro k; rw [if_neg (by omega)]
  | succ m ih =>
    intro n d hn hm
    by_cases hlt : n < dw
    · have hr1 : readAt ((dw : Int).toNat) x_ofs (n : Int) = some (x_ofs n) := by
        rw [Int.toNat_ofNat]; exact readAt_natCast dw x_ofs n hlt
      have hr2 := readAt_of_range src_size src (S + x_ofs n) (hS n hlt)
      have hw := storeAt_of_range dst_size d ((D : Int) + (n : Int))
        (src (S + x_ofs n).toNat) ⟨by omega, by omega⟩
      have et : ((D : Int) + (n : Int)).toNat = D + n := by omega
      rw [et] at hw
      obtain ⟨d', hd', hk⟩ := ih (n + 1)
        (Function.update d (D + n) (src (S + x_ofs n).toNat)) (by omega) (by omega)
      refine ⟨d', ?_, ?_⟩
      · rw [resizeTail, if_pos (by show (n : Int) < (dw : Int); exact_mod_cast hlt)]
        simp only [hr1, hr2, hw, Option.some_bind]
        exact_mod_cast hd'
      · intro k
        rw [hk k]
        by_cases hkn : k = D + n
        · subst hkn
          have e2 : D + n - D = n := by omega
          rw [if_neg (by omega), Function.update_same, if_pos (by omega), e2]
        · rw [Function.update_noteq hkn]
          by_cases hc : D + (n + 1) ≤ k ∧ k < D + dw
          · rw [if_pos hc, if_pos (by omega)]
          · rw [if_neg hc, if_neg (by omega)]
    · have e : n = dw := by omega
      subst e
      refine ⟨d, ?_, ?_⟩
      · rw [resizeTail, if_neg (by simp)]
      · intro k; rw [if_neg (by omega)]

theorem resizePairs_spec {α : Type} (src : Nat → α) (src_size : Nat) (x_ofs : Nat → Int)
    (dst_size : Nat) (S : Int) (D dw : Nat)
    (hS : ∀ j, j < dw → 0 ≤ S + x_ofs j ∧ S + x_ofs j < (src_size : Int))
    (hD : D + dw ≤ dst_size) :
    ∀ (m n : Nat) (d : Nat → α), n ≤ dw → dw - n ≤ m →
      ∃ (n' : Nat) (d' : Nat → α), resizePairs src src_size x_ofs dst_size S (D : Int) (dw : Int)
          { x := (n : Int), dst := d } = some { x := (n' : Int), dst := d' } ∧
        n ≤ n' ∧ n' ≤ dw ∧
        ∀ k, d' k = if D + n ≤ k ∧ k < D + n' then src (S + x_ofs (k - D)).toNat else d k := by
  intro m
  induction m using Nat.strong_induction_on with
  | _ m ih =>
    intro n d hn hm
    by_cases hle : n + 2 ≤ dw
    · have hr1 : readAt ((dw : Int).toNat) x_ofs (n : Int) = some (x_ofs n) := by
        rw [Int.toNat_ofNat]; exact readAt_natCast dw x_ofs n (by omega)
      have hr1' : readAt ((dw : Int).toNat) x_ofs ((n : Int) + 1) = some (x_ofs (n + 1)) := by
        rw [Int.toNat_ofNat]
        have := readAt_natCast dw x_ofs (n + 1) (by omega)
        exact_mod_cast this
      have hr2 := readAt_of_range src_size src (S + x_ofs n) (hS n (by omega))
      have hr2' := readAt_of_range src_size src (S + x_ofs (n + 1)) (hS (n + 1) (by omega))
      have hw := storeAt_of_range dst_size d ((D : Int) + (n : Int))
        (src (S + x_ofs n).toNat) ⟨by omega, by omega⟩
      have et : ((D : Int) + (n : Int)).toNat = D + n := by omega
      rw [et] at hw
      have hw' := storeAt_of_range dst_size
        (Function.update d (D + n) (src (S + x_ofs n).toNat)) ((D : Int) + ((n : Int) + 1))
        (src (S + x_ofs (n + 1)).toNat) ⟨by omega, by omega⟩
      have et' : ((D : Int) + ((n : Int) + 1)).toNat = D + (n + 1) := by omega
      rw [et'] at hw'
      obtain ⟨n', d', hd', h1, h2, hk⟩ := ih (dw - (n + 2)) (by omega) (n + 2)
        (Function.update (Function.update d (D + n) (src (S + x_ofs n).toNat)) (D + (n + 1))
          (src (S + x_ofs (n + 1)).toNat)) (by omega) (le_refl _)
      refine ⟨n', d', ?_, by omega, h2, ?_⟩
      · rw [resizePairs, if_pos (by show (n : Int) ≤ (dw : Int) - 2; omega)]
        simp only [hr1, hr2, hr1', hr2', hw, hw', Option.some_bind]
        exact_mod_cast hd'
      · intro k
        rw [hk k]
        by_cases hk0 : k = D + n
        · subst hk0
          have e2 : D + n - D = n := by omega
          rw [if_neg (by omega), Function.update_noteq (by omega), Function.update_same,
            if_pos (by omega), e2]
        · by_cases hk1 : k = D + (n + 1)
          · subst hk1
            have e2 : D + (n + 1) - D = n + 1 := by omega
            rw [if_neg (by omega), Function.update_same, if_pos (by omega), e2]
          · rw [Function.update_noteq hk1, Function.update_noteq hk0]
            by_cases hc : D + (n + 2) ≤ k ∧ k < D + n'
            · rw [if_pos hc, if_pos (by omega)]
            · rw [if_neg hc, if_neg (by omega)]
    · refine ⟨n, d, ?_, le_refl _, hn, ?_⟩
      · rw [resizePairs, if_neg (by show ¬ (n : Int) ≤ (dw : Int) - 2; omega)]
      · intro k; rw [if_neg (by omega)]

theorem toInt_intCast (z : Int) : toInt (z : ℚ) = z := by
  unfold toInt
  split_ifs <;> simp

theorem toInt_natCast (n : Nat) : toInt (n : ℚ) = (n : Int) := by
  have h := toInt_intCast (n : Int)
  rw [Int.cast_natCast] at h
  exact h

theorem resize_scale_nonneg (rnd : ℚ → ℚ) (hnn : ∀ q, 0 ≤ q → 0 ≤ rnd q) (a b : Nat) :
    0 ≤ resize_scale rnd (a : Int) (b : Int) := by
  unfold resize_scale
  simp only [fdiv, ofInt, Int.cast_natCast]
  apply hnn
  apply div_nonneg zero_le_one
  apply hnn
  exact div_nonneg (hnn _ (Nat.cast_nonneg b)) (hnn _ (Nat.cast_nonneg a))

theorem resize_sx_range (rnd : ℚ → ℚ) (hnn : ∀ q, 0 ≤ q → 0 ≤ rnd q) (scale : ℚ)
    (hs : 0 ≤ scale) (sw x : Nat) (hsw : 0 < sw) :
    0 ≤ resize_sx rnd scale (sw : Int) (x : Int) ∧
      resize_sx rnd scale (sw : Int) (x : Int) < (sw : Int) := by
  unfold resize_sx
  simp only [ffloor, toInt_intCast, fmul, ofInt, Int.cast_natCast]
  have h0 : 0 ≤ rnd (rnd (x : ℚ) * scale) :=
    hnn _ (mul_nonneg (hnn _ (Nat.cast_nonneg x)) hs)
  have hf : 0 ≤ ⌊rnd (rnd (x : ℚ) * scale)⌋ := Int.floor_nonneg.mpr h0
  constructor
  · exact le_min hf (by omega)
  · exact lt_of_le_of_lt (min_le_right _ _) (by omega)

theorem resize_sy_range (rnd : ℚ → ℚ) (hnn : ∀ q, 0 ≤ q → 0 ≤ rnd q)
    (hfix : ∀ n : Nat, n < 2 ^ 31 → rnd (n : ℚ) = (n : ℚ)) (scale : ℚ)
    (hs : 0 ≤ scale) (sh y : Nat) (hsh : 0 < sh) (hb : sh < 2 ^ 31) :
    0 ≤ resize_sy rnd scale (sh : Int) (y : Int) ∧
      resize_sy rnd scale (sh : Int) (y : Int) < (sh : Int) := by
  unfold resize_sy
  have hb1 : ofInt rnd ((sh : Int) - 1) = (((sh : Int) - 1 : Int) : ℚ) := by
    unfold ofInt
    have e : (((sh : Int) - 1 : Int) : ℚ) = ((sh - 1 : Nat) : ℚ) := by
      have : ((sh : Int) - 1) = ((sh - 1 : Nat) : Int) := by omega
      rw [this, Int.cast_natCast]
    rw [e]
    exact hfix (sh - 1) (by omega)
  simp only [ffloor, fmul, ofInt, Int.cast_natCast] at hb1 ⊢
  rw [hb1]
  have h0 : 0 ≤ rnd (rnd (y : ℚ) * scale) :=
    hnn _ (mul_nonneg (hnn _ (Nat.cast_nonneg y)) hs)
  have hf : 0 ≤ ⌊rnd (rnd (y : ℚ) * scale)⌋ := Int.floor_nonneg.mpr h0
  split_ifs with hlt
  · rw [toInt_intCast]
    have : ⌊rnd (rnd (y : ℚ) * scale)⌋ < (sh : Int) - 1 := by exact_mod_cast hlt
    constructor <;> omega
  · rw [toInt_intCast]
    constructor <;> omega

theorem resize_x_ofs_loop (rnd : ℚ → ℚ) (scale : ℚ) (sw dw : Nat) :
    ∃ xo, forLoopM
        (fun x m => storeAt (dw : Int).toNat m (x : Int) (resize_sx rnd scale (sw : Int) (x : Int)))
        (dw : Int).toNat 0 (fun _ => 0) = some xo ∧
      ∀ j, j < dw → xo j = resize_sx rnd scale (sw : Int) (j : Int) := by
  rw [Int.toNat_ofNat]
  obtain ⟨xo, hxo, hP⟩ := forLoopM_inv
    (fun x m => storeAt dw m (x : Int) (resize_sx rnd scale (sw : Int) (x : Int)))
    (fun i m => ∀ j, j < i → m j = resize_sx rnd scale (sw : Int) (j : Int)) dw 0 (fun _ => 0)
    (by intro j hj; omega)
    (by
      intro i t _ hi hp
      refine ⟨Function.update t i (resize_sx rnd scale (sw : Int) (i : Int)), ?_, ?_⟩
      · have := storeAt_of_range dw t (i : Int) (resize_sx rnd scale (sw : Int) (i : Int))
          ⟨by omega, by omega⟩
        rw [Int.toNat_ofNat] at this
        exact this
      · intro j hj
        by_cases hji : j = i
        · subst hji; simp
        · rw [Function.update_noteq hji]; exact hp j (by omega))
  exact ⟨xo, hxo, by simpa using hP⟩

theorem resizeRow_spec {α : Type} (rnd : ℚ → ℚ) (hnn : ∀ q, 0 ≤ q → 0 ≤ rnd q)
    (hfix : ∀ n : Nat, n < 2 ^ 31 → rnd (n : ℚ) = (n : ℚ))
    (src : Nat → α) (xo : Nat → Int) (scale_y : ℚ) (hsy : 0 ≤ scale_y) (sw sh dw dh : Nat)
    (hsh : 0 < sh) (hb : sh < 2 ^ 31)
    (hxo : ∀ j, j < dw → 0 ≤ xo j ∧ xo j < (sw : Int))
    (y : Nat) (hy : y < dh) (d : Nat → α) :
    ∃ d', resizeRow rnd src xo scale_y (sw : Int) (sh : Int) (dw : Int) (dh : Int) y d = some d' ∧
      ∀ k, d' k =
        if y * dw ≤ k ∧ k < y * dw + dw then
          src (resize_sy rnd scale_y (sh : Int) (y : Int) * (sw : Int) + xo (k - y * dw)).toNat
        else d k := by
  obtain ⟨hy0, hy1⟩ := resize_sy_range rnd hnn hfix scale_y hsy sh y hsh hb
  unfold resizeRow
  simp only
  generalize resize_sy rnd scale_y (sh : Int) (y : Int) = sy at hy0 hy1 ⊢
  have esrc : ((sw : Int) * (sh : Int)).toNat = sw * sh := by
    have := Int.toNat_ofNat (sw * sh)
    push_cast at this
    exact this
  have edst : ((dw : Int) * (dh : Int)).toNat = dw * dh := by
    have := Int.toNat_ofNat (dw * dh)
    push_cast at this
    exact this
  have eD : (y : Int) * (dw : Int) = ((y * dw : Nat) : Int) := by push_cast; rfl
  have hS : ∀ j, j < dw → 0 ≤ sy * (sw : Int) + xo j ∧
      sy * (sw : Int) + xo j < ((sw * sh : Nat) : Int) := by
    intro j hj
    obtain ⟨h1, h2⟩ := hxo j hj
    have h3 : 0 ≤ sy * (sw : Int) := mul_nonneg hy0 (Int.ofNat_nonneg sw)
    have h4 : sy * (sw : Int) ≤ ((sh : Int) - 1) * (sw : Int) :=
      mul_le_mul_of_nonneg_right (by omega) (Int.ofNat_nonneg sw)
    have h5 : ((sh : Int) - 1) * (sw : Int) = (sw : Int) * (sh : Int) - (sw : Int) := by ring
    push_cast
    constructor <;> omega
  have hD : y * dw + dw ≤ dw * dh := by
    have h1 : (y + 1) * dw ≤ dh * dw := Nat.mul_le_mul_right dw (by omega)
    have h2 : (y + 1) * dw = y * dw + dw := by ring
    have h3 : dh * dw = dw * dh := Nat.mul_comm _ _
    omega
  obtain ⟨n1, d1, hp, _, hn1, hk1⟩ := resizePairs_spec src (sw * sh) xo (dw * dh)
    (sy * (sw : Int)) (y * dw) dw hS hD dw 0 d (Nat.zero_le _) (by omega)
  obtain ⟨d2, ht, hk2⟩ := resizeTail_spec src (sw * sh) xo (dw * dh)
    (sy * (sw : Int)) (y * dw) dw hS hD (dw - n1) n1 d1 hn1 (le_refl _)
  refine ⟨d2, ?_, ?_⟩
  · simp only [esrc, edst, eD]
    have hp' : resizePairs src (sw * sh) xo (dw * dh) (sy * (sw : Int)) ((y * dw : Nat) : Int)
        (dw : Int) { x := 0, dst := d } = some { x := (n1 : Int), dst := d1 } := by
      exact_mod_cast hp
    rw [hp']
    simp only [Option.some_bind, ht]
  · intro k
    rw [hk2 k, hk1 k]
    by_cases hc : y * dw ≤ k ∧ k < y * dw + dw
    · rw [if_pos hc]
      by_cases hc2 : y * dw + n1 ≤ k ∧ k < y * dw + dw
      · rw [if_pos hc2]
      · rw [if_neg hc2, if_pos (by omega)]
    · rw [if_neg hc, if_neg (by omega), if_neg (by omega)]

theorem resize_spec {α : Type} (rnd : ℚ → ℚ) (hnn : ∀ q, 0 ≤ q → 0 ≤ rnd q)
    (hfix : ∀ n : Nat, n < 2 ^ 31 → rnd (n : ℚ) = (n : ℚ))
    (src dst : Nat → α) (sw sh dw dh : Nat) (hsw : 0 < sw) (hsh : 0 < sh) (hb : sh < 2 ^ 31) :
    ∃ out, resize rnd src dst (sw : Int) (sh : Int) (dw : Int) (dh : Int) = some out ∧
      (∀ x y, x < dw → y < dh →
        out (y * dw + x) =
          src (resize_sy rnd (resize_scale rnd (sh : Int) (dh : Int)) (sh : Int) (y : Int)
                * (sw : Int)
              + resize_sx rnd (resize_scale rnd (sw : Int) (dw : Int)) (sw : Int) (x : Int)).toNat) ∧
      ∀ k, dh * dw ≤ k → out k = dst k := by
  obtain ⟨xo, hxo, hxv⟩ := resize_x_ofs_loop rnd (resize_scale rnd (sw : Int) (dw : Int)) sw dw
  have hsx0 := resize_scale_nonneg rnd hnn sw dw
  have hsy0 := resize_scale_nonneg rnd hnn sh dh
  have hxr : ∀ j, j < dw → 0 ≤ xo j ∧ xo j < (sw : Int) := by
    intro j hj
    rw [hxv j hj]
    exact resize_sx_range rnd hnn _ hsx0 sw j hsw
  obtain ⟨out, hout, hP⟩ := forLoopM_inv
    (fun y d => resizeRow rnd src xo (resize_scale rnd (sh : Int) (dh : Int))
      (sw : Int) (sh : Int) (dw : Int) (dh : Int) y d)
    (fun y d => (∀ r c, r < y → c < dw →
        d (r * dw + c) =
          src (resize_sy rnd (resize_scale rnd (sh : Int) (dh : Int)) (sh : Int) (r : Int)
                * (sw : Int) + xo c).toNat) ∧
      ∀ k, y * dw ≤ k → d k = dst k)
    dh 0 dst
    ⟨by intro r c hr; omega, by intro k _; rfl⟩
    (by
      intro y d _ hy ⟨h1, h2⟩
      obtain ⟨d', hd', hk⟩ := resizeRow_spec rnd hnn hfix src xo
        (resize_scale rnd (sh : Int) (dh : Int)) hsy0 sw sh dw dh hsh hb hxr y (by omega) d
      refine ⟨d', hd', ?_, ?_⟩
      · intro r c hr hc
        rw [hk (r * dw + c)]
        by_cases hry : r = y
        · subst hry
          have e : r * dw + c - r * dw = c := by omega
          rw [if_pos ⟨by omega, by omega⟩, e]
        · have h3 : (r + 1) * dw ≤ y * dw := Nat.mul_le_mul_right dw (by omega)
          have h4 : (r + 1) * dw = r * dw + dw := by ring
          rw [if_neg (by omega)]
          exact h1 r c (by omega) hc
      · intro k hk1
        have h4 : (y + 1) * dw = y * dw + dw := by ring
        rw [hk k, if_neg (by omega)]
        exact h2 k (by omega))
  refine ⟨out, ?_, ?_, ?_⟩
  · simp only [Int.toNat_ofNat] at hxo
    unfold resize
    simp only [Int.toNat_ofNat, hxo, Option.some_bind]
    exact hout
  · intro x y hx hy
    have := hP.1 y x (by omega) hx
    rw [this, hxv x hx]
  · intro k hk
    exact hP.2 k (by simpa using hk)

theorem resize_scale_same (rnd : ℚ → ℚ)
    (hfix : ∀ n : Nat, n < 2 ^ 31 → rnd (n : ℚ) = (n : ℚ)) (n : Nat) (h0 : 0 < n)
    (hb : n < 2 ^ 31) : resize_scale rnd (n : Int) (n : Int) = 1 := by
  have h1 : rnd (1 : ℚ) = 1 := by simpa using hfix 1 (by norm_num)
  have hn : (n : ℚ) ≠ 0 := by exact_mod_cast (Nat.pos_iff_ne_zero.mp h0)
  unfold resize_scale
  simp only [fdiv, ofInt, Int.cast_natCast, hfix n hb, div_self hn, h1, div_one]

theorem resize_sx_same (rnd : ℚ → ℚ)
    (hfix : ∀ n : Nat, n < 2 ^ 31 → rnd (n : ℚ) = (n : ℚ)) (n x : Nat) (hx : x < n)
    (hb : n < 2 ^ 31) : resize_sx rnd 1 (n : Int) (x : Int) = (x : Int) := by
  unfold resize_sx
  simp only [fmul, ofInt, ffloor, Int.cast_natCast, hfix x (by omega), mul_one, Int.floor_natCast,
    toInt_natCast]
  have h : (x : Int) ≤ (n : Int) - 1 := by omega
  exact min_eq_left h

theorem resize_sy_same (rnd : ℚ → ℚ)
    (hfix : ∀ n : Nat, n < 2 ^ 31 → rnd (n : ℚ) = (n : ℚ)) (n y : Nat) (hy : y < n)
    (hb : n < 2 ^ 31) : resize_sy rnd 1 (n : Int) (y : Int) = (y : Int) := by
  have hb1 : ofInt rnd ((n : Int) - 1) = (((n : Int) - 1 : Int) : ℚ) := by
    unfold ofInt
    have e : (((n : Int) - 1 : Int) : ℚ) = ((n - 1 : Nat) : ℚ) := by
      have : ((n : Int) - 1) = ((n - 1 : Nat) : Int) := by omega
      rw [this, Int.cast_natCast]
    rw [e]
    exact hfix (n - 1) (by omega)
  unfold resize_sy
  simp only [fmul, ffloor, hb1]
  simp only [ofInt, Int.cast_natCast, hfix y (by omega), mul_one, Int.floor_natCast]
  split_ifs with hlt
  · exact toInt_intCast _
  · rw [toInt_intCast]
    have : ¬ ((y : Int) < (n : Int) - 1) := by
      intro h
      apply hlt
      exact_mod_cast h
    omega

theorem roundF64_nonneg (q : ℚ) (hq : 0 ≤ q) : 0 ≤ roundF64 q :=
  roundBinary_nonneg 52 (-1074) q hq

theorem roundF64_natCast (n : Nat) (hn : n < 2 ^ 31) : roundF64 (n : ℚ) = (n : ℚ) :=
  roundBinary_natCast 52 (-1074) n (lt_trans hn (by norm_num)) (by norm_num)

theorem resize_sx_exact (sw dw x : Nat) (hsw : 0 < sw) (hdw : 0 < dw) :
    resize_sx id (resize_scale id (sw : Int) (dw : Int)) (sw : Int) (x : Int) =
      resize_index_spec (sw : Int) (dw : Int) (x : Int) := by
  have h1 : (sw : ℚ) ≠ 0 := by exact_mod_cast (Nat.pos_iff_ne_zero.mp hsw)
  have h2 : (dw : ℚ) ≠ 0 := by exact_mod_cast (Nat.pos_iff_ne_zero.mp hdw)
  unfold resize_sx resize_scale resize_index_spec
  simp only [fmul, fdiv, ofInt, id, ffloor, toInt_intCast, Int.cast_natCast]
  congr 2
  field_simp

/-! ## Nearest-neighbour resize (C18) -/

/-- C18, refuted as stated: in `double` arithmetic the column index is not
always `min(floor(x*src_width/dst_width), src_width-1)`.  For `src_width = 2`,
`dst_width = 98` and `x = 49` that formula gives 1, but `scale_x` is
`1. / 49.`, the product `49 * scale_x` rounds to `1 - 2^-53`, and the code
takes `sx = 0`: resizing the 2x1 image `src = [0, 1]` to 98x1 stores
`src[0] = 0` in `dst[49]`, not `src[1]`. -/
theorem C18_double_scale_misses_the_pixel :
    resize_index_spec 2 98 49 = 1 ∧
    fmul roundF64 (ofInt roundF64 49) (resize_scale roundF64 2 98) = 1 - 1 / 2 ^ 53 ∧
    resize_sx roundF64 (resize_scale roundF64 2 98) 2 49 = 0 ∧
    ∃ out, resize roundF64 (fun k => k) (fun _ => 7)
        ((2 : Nat) : Int) ((1 : Nat) : Int) ((98 : Nat) : Int) ((1 : Nat) : Int) = some out ∧
      out (0 * 98 + 49) = 0 ∧ out (0 * 98 + 49) ≠ (fun k : Nat => k) (0 * 2 + 1) := by
  refine ⟨by decide!, by decide!, by decide!, ?_⟩
  obtain ⟨out, h, hv, _⟩ := resize_spec roundF64 roundF64_nonneg roundF64_natCast
    (fun k => k) (fun _ => 7) 2 1 98 1 (by decide) (by decide) (by decide)
  have h49 := hv 49 0 (by decide) (by decide)
  have e : (resize_sy roundF64 (resize_scale roundF64 ((1 : Nat) : Int) ((1 : Nat) : Int))
        ((1 : Nat) : Int) ((0 : Nat) : Int) * ((2 : Nat) : Int)
      + resize_sx roundF64 (resize_scale roundF64 ((2 : Nat) : Int) ((98 : Nat) : Int))
        ((2 : Nat) : Int) ((49 : Nat) : Int)).toNat = 0 := by decide!
  rw [e] at h49
  exact ⟨out, h, h49, by rw [h49]; decide⟩

/-- C18, amended: for all positive sizes (in the range of `int`) and every
`0 <= x < dst_width`, `0 <= y < dst_height`, `resize` returns having set
`dst[y*dst_width + x] = src[sy*src_width + sx]` with
`sx = min(floor(x*scale_x), src_width-1)` and
`sy = min(floor(y*scale_y), src_height-1)`, where
`scale_x = 1. / ((double)dst_width / src_width)` and
`scale_y = 1. / ((double)dst_height / src_height)` and the products are
computed in the arithmetic `rnd` (any rounding that keeps non-negative values
non-negative and leaves the integers below `2^31` unchanged, as `double`
does); every destination pixel is written, `0 <= sx < src_width` and
`0 <= sy < src_height` so every source index read is inside the source image,
and when the destination size equals the source size the result is an exact
copy of the source. -/
theorem C18_resize_nearest_neighbour {α : Type} (rnd : ℚ → ℚ)
    (hnn : ∀ q, 0 ≤ q → 0 ≤ rnd q)
    (hfix : ∀ n : Nat, n < 2 ^ 31 → rnd (n : ℚ) = (n : ℚ))
    (src dst : Nat → α) (sw sh dw dh : Nat)
    (hsw : 0 < sw) (hsh : 0 < sh) (hdw : 0 < dw) (hdh : 0 < dh)
    (bsw : sw < 2 ^ 31) (bsh : sh < 2 ^ 31) (bdw : dw < 2 ^ 31) (bdh : dh < 2 ^ 31) :
    ∃ out, resize rnd src dst (sw : Int) (sh : Int) (dw : Int) (dh : Int) = some out ∧
      (∀ x y, x < dw → y < dh →
        (0 ≤ resize_sx rnd (resize_scale rnd (sw : Int) (dw : Int)) (sw : Int) (x : Int) ∧
          resize_sx rnd (resize_scale rnd (sw : Int) (dw : Int)) (sw : Int) (x : Int)
            < (sw : Int)) ∧
        (0 ≤ resize_sy rnd (resize_scale rnd (sh : Int) (dh : Int)) (sh : Int) (y : Int) ∧
          resize_sy rnd (resize_scale rnd (sh : Int) (dh : Int)) (sh : Int) (y : Int)
            < (sh : Int)) ∧
        out (y * dw + x) =
          src (resize_sy rnd (resize_scale rnd (sh : Int) (dh : Int)) (sh : Int) (y : Int)
                * (sw : Int)
              + resize_sx rnd (resize_scale rnd (sw : Int) (dw : Int)) (sw : Int) (x : Int)).toNat) ∧
      (sw = dw → sh = dh → ∀ k, k < dw * dh → out k = src k) := by
  obtain ⟨out, h, hv, _⟩ := resize_spec rnd hnn hfix src dst sw sh dw dh hsw hsh bsh
  refine ⟨out, h, ?_, ?_⟩
  · intro x y hx hy
    exact ⟨resize_sx_range rnd hnn _ (resize_scale_nonneg rnd hnn sw dw) sw x hsw,
      resize_sy_range rnd hnn hfix _ (resize_scale_nonneg rnd hnn sh dh) sh y hsh bsh,
      hv x y hx hy⟩
  · intro e1 e2 k hk
    subst e1 e2
    have hx : k % sw < sw := Nat.mod_lt k hsw
    have hy : k / sw < sh := Nat.div_lt_of_lt_mul hk
    have hkk : k / sw * sw + k % sw = k := Nat.div_add_mod' k sw
    have := hv (k % sw) (k / sw) hx hy
    rw [hkk, resize_scale_same rnd hfix sw hsw bsw, resize_scale_same rnd hfix sh hsh bsh,
      resize_sx_same rnd hfix sw (k % sw) hx bsw, resize_sy_same rnd hfix sh (k / sw) hy bsh] at this
    have e3 : (((k / sw : Nat) : Int) * (sw : Int) + ((k % sw : Nat) : Int)).toNat = k := by
      have e4 : ((k / sw : Nat) : Int) * (sw : Int) + ((k % sw : Nat) : Int) = ((k : Nat) : Int) := by
        exact_mod_cast hkk
      rw [e4, Int.toNat_ofNat]
    rw [this, e3]

/-- C18, witness: `double` arithmetic, the 2x1 image `[0, 1]` resized to 98x1
(an even destination width). -/
theorem C18_resize_nearest_neighbour_witness :
    ((∀ q, 0 ≤ q → 0 ≤ roundF64 q) ∧ (∀ n : Nat, n < 2 ^ 31 → roundF64 (n : ℚ) = (n : ℚ)) ∧
      0 < 2 ∧ 0 < 1 ∧ 0 < 98 ∧ 0 < 1 ∧ 2 < 2 ^ 31 ∧ 1 < 2 ^ 31 ∧ 98 < 2 ^ 31 ∧ 1 < 2 ^ 31) ∧
    ∃ out, resize roundF64 (fun k : Nat => k) (fun _ => 7)
        ((2 : Nat) : Int) ((1 : Nat) : Int) ((98 : Nat) : Int) ((1 : Nat) : Int) = some out ∧
      (∀ x y : Nat, x < 98 → y < 1 →
        (0 ≤ resize_sx roundF64 (resize_scale roundF64 ((2 : Nat) : Int) ((98 : Nat) : Int))
              ((2 : Nat) : Int) (x : Int) ∧
          resize_sx roundF64 (resize_scale roundF64 ((2 : Nat) : Int) ((98 : Nat) : Int))
              ((2 : Nat) : Int) (x : Int) < ((2 : Nat) : Int)) ∧
        (0 ≤ resize_sy roundF64 (resize_scale roundF64 ((1 : Nat) : Int) ((1 : Nat) : Int))
              ((1 : Nat) : Int) (y : Int) ∧
          resize_sy roundF64 (resize_scale roundF64 ((1 : Nat) : Int) ((1 : Nat) : Int))
              ((1 : Nat) : Int) (y : Int) < ((1 : Nat) : Int)) ∧
        out (y * 98 + x) =
          (fun k : Nat => k)
            (resize_sy roundF64 (resize_scale roundF64 ((1 : Nat) : Int) ((1 : Nat) : Int))
                ((1 : Nat) : Int) (y : Int) * ((2 : Nat) : Int)
              + resize_sx roundF64 (resize_scale roundF64 ((2 : Nat) : Int) ((98 : Nat) : Int))
                ((2 : Nat) : Int) (x : Int)).toNat) ∧
      (2 = 98 → 1 = 1 → ∀ k, k < 98 * 1 → out k = (fun k : Nat => k) k) :=
  ⟨⟨roundF64_nonneg, roundF64_natCast, by decide, by decide, by decide, by decide,
      by decide, by decide, by decide, by decide⟩,
    C18_resize_nearest_neighbour roundF64 roundF64_nonneg roundF64_natCast
      (fun k : Nat => k) (fun _ => 7) 2 1 98 1 (by decide) (by decide) (by decide) (by decide)
      (by decide) (by decide) (by decide) (by decide)⟩

end Kinect
